import Mathlib

/-!
Verification of the document-processing core of the Kokoro PDF reader
repository.  Each Python function named below is embedded as an executable
Lean definition over exact rational arithmetic (`ℚ` for coordinates and font
sizes, `Nat`/`Int` for counters), with Python exceptions modelled by
`Except String`.  Source references are given as `file.py::function`.
-/

/-- A bounding box `(x0, y0, x1, y1)`, as used throughout the pipeline. -/
structure Box where
  x0 : ℚ
  y0 : ℚ
  x1 : ℚ
  y1 : ℚ
deriving DecidableEq, Repr

/-- A box is well formed when `x0 ≤ x1` and `y0 ≤ y1`. -/
def Box.WF (b : Box) : Prop := b.x0 ≤ b.x1 ∧ b.y0 ≤ b.y1

/-- `pdf_utils.py::PDFUtils.bbox_area`:
`abs((bbox[2] - bbox[0]) * (bbox[3] - bbox[1]))`. -/
def bbox_area (b : Box) : ℚ := |(b.x1 - b.x0) * (b.y1 - b.y0)|

/-- `pdf_utils.py::PDFUtils.bbox_overlap`: product of the clamped axis
overlaps `max 0 (min x1s - max x0s) * max 0 (min y1s - max y0s)`. -/
def bbox_overlap (a b : Box) : ℚ :=
  max 0 (min a.x1 b.x1 - max a.x0 b.x0) * max 0 (min a.y1 b.y1 - max a.y0 b.y0)

/-- `pdf_utils.py::PDFUtils.bbox_overlap_ratio`: intersection over union,
returning `0` when the intersection is `0` and guarding the division by a
non-positive union (`return intersection / union if union > 0 else 0.0`). -/
def bbox_overlap_ratio (a b : Box) : ℚ :=
  if bbox_overlap a b = 0 then 0
  else if 0 < bbox_area a + bbox_area b - bbox_overlap a b then
    bbox_overlap a b / (bbox_area a + bbox_area b - bbox_overlap a b)
  else 0

/-- Geometric disjointness of two boxes: they share no interior point. -/
def Box.Disjoint (a b : Box) : Prop :=
  a.x1 ≤ b.x0 ∨ b.x1 ≤ a.x0 ∨ a.y1 ≤ b.y0 ∨ b.y1 ≤ a.y0

theorem bbox_overlap_comm (a b : Box) : bbox_overlap a b = bbox_overlap b a := by
  unfold bbox_overlap
  rw [min_comm a.x1, max_comm a.x0, min_comm a.y1, max_comm a.y0]

theorem bbox_overlap_nonneg (a b : Box) : 0 ≤ bbox_overlap a b :=
  mul_nonneg (le_max_left _ _) (le_max_left _ _)

theorem bbox_overlap_le_area_left {a b : Box} (ha : a.WF) :
    bbox_overlap a b ≤ bbox_area a := by
  obtain ⟨hx, hy⟩ := ha
  have harea : bbox_area a = (a.x1 - a.x0) * (a.y1 - a.y0) := by
    unfold bbox_area
    exact abs_of_nonneg (mul_nonneg (by linarith) (by linarith))
  rw [harea]
  unfold bbox_overlap
  apply mul_le_mul
  · apply max_le (by linarith)
    have h1 : min a.x1 b.x1 ≤ a.x1 := min_le_left _ _
    have h2 : a.x0 ≤ max a.x0 b.x0 := le_max_left _ _
    linarith
  · apply max_le (by linarith)
    have h1 : min a.y1 b.y1 ≤ a.y1 := min_le_left _ _
    have h2 : a.y0 ≤ max a.y0 b.y0 := le_max_left _ _
    linarith
  · exact le_max_left _ _
  · linarith

theorem bbox_overlap_le_area_right {a b : Box} (hb : b.WF) :
    bbox_overlap a b ≤ bbox_area b := by
  rw [bbox_overlap_comm]
  exact bbox_overlap_le_area_left hb

theorem bbox_overlap_of_disjoint {a b : Box} (h : Box.Disjoint a b) :
    bbox_overlap a b = 0 := by
  unfold bbox_overlap
  rcases h with h | h | h | h
  · have hle : min a.x1 b.x1 - max a.x0 b.x0 ≤ 0 := by
      have h1 : min a.x1 b.x1 ≤ a.x1 := min_le_left _ _
      have h2 : b.x0 ≤ max a.x0 b.x0 := le_max_right _ _
      linarith
    rw [max_eq_left hle, zero_mul]
  · have hle : min a.x1 b.x1 - max a.x0 b.x0 ≤ 0 := by
      have h1 : min a.x1 b.x1 ≤ b.x1 := min_le_right _ _
      have h2 : a.x0 ≤ max a.x0 b.x0 := le_max_left _ _
      linarith
    rw [max_eq_left hle, zero_mul]
  · have hle : min a.y1 b.y1 - max a.y0 b.y0 ≤ 0 := by
      have h1 : min a.y1 b.y1 ≤ a.y1 := min_le_left _ _
      have h2 : b.y0 ≤ max a.y0 b.y0 := le_max_right _ _
      linarith
    rw [max_eq_left hle, mul_zero]
  · have hle : min a.y1 b.y1 - max a.y0 b.y0 ≤ 0 := by
      have h1 : min a.y1 b.y1 ≤ b.y1 := min_le_right _ _
      have h2 : a.y0 ≤ max a.y0 b.y0 := le_max_left _ _
      linarith
    rw [max_eq_left hle, mul_zero]

/-- C9: `bbox_overlap_ratio` is symmetric, lies in `[0, 1]` for well-formed
boxes, and is `0` on disjoint boxes (the zero-union case is guarded and
returns `0` rather than dividing). -/
theorem bbox_overlap_ratio_spec (a b : Box) (ha : a.WF) (hb : b.WF) :
    bbox_overlap_ratio a b = bbox_overlap_ratio b a ∧
    0 ≤ bbox_overlap_ratio a b ∧ bbox_overlap_ratio a b ≤ 1 ∧
    (Box.Disjoint a b → bbox_overlap_ratio a b = 0) := by
  refine ⟨?_, ?_, ?_, ?_⟩
  · unfold bbox_overlap_ratio
    rw [bbox_overlap_comm, add_comm (bbox_area a)]
  · unfold bbox_overlap_ratio
    split
    · exact le_refl 0
    · rename_i hne
      split
      · rename_i hu
        have hipos : 0 < bbox_overlap a b :=
          lt_of_le_of_ne (bbox_overlap_nonneg a b) (fun h => hne h.symm)
        positivity
      · exact le_refl 0
  · unfold bbox_overlap_ratio
    split
    · exact zero_le_one
    · split
      · rename_i hu
        rw [div_le_one hu]
        have h1 := bbox_overlap_le_area_left (b := b) ha
        have h2 := bbox_overlap_le_area_right (a := a) hb
        linarith
      · exact zero_le_one
  · intro hd
    unfold bbox_overlap_ratio
    simp [bbox_overlap_of_disjoint hd]

/-- Witness for C9 at two concrete overlapping boxes. -/
theorem bbox_overlap_ratio_spec_witness :
    bbox_overlap_ratio ⟨0, 0, 2, 2⟩ ⟨1, 1, 3, 3⟩ =
      bbox_overlap_ratio ⟨1, 1, 3, 3⟩ ⟨0, 0, 2, 2⟩ ∧
    0 ≤ bbox_overlap_ratio ⟨0, 0, 2, 2⟩ ⟨1, 1, 3, 3⟩ ∧
    bbox_overlap_ratio ⟨0, 0, 2, 2⟩ ⟨1, 1, 3, 3⟩ ≤ 1 ∧
    (Box.Disjoint ⟨0, 0, 2, 2⟩ ⟨1, 1, 3, 3⟩ →
      bbox_overlap_ratio ⟨0, 0, 2, 2⟩ ⟨1, 1, 3, 3⟩ = 0) :=
  bbox_overlap_ratio_spec ⟨0, 0, 2, 2⟩ ⟨1, 1, 3, 3⟩
    ⟨by norm_num, by norm_num⟩ ⟨by norm_num, by norm_num⟩

/-! ### A stable ascending sort, modelling Python's `list.sort` / `sorted`

Python's sort is stable and ascending with respect to a key.  We embed it as
a stable insertion sort over a boolean `le`; for a total preorder this
produces the unique stable ascending ordering, which is what CPython's
Timsort produces. -/

def pyInsert {α : Type} (le : α → α → Bool) (a : α) : List α → List α
  | [] => [a]
  | b :: l => if le a b then a :: b :: l else b :: pyInsert le a l

def pySort {α : Type} (le : α → α → Bool) : List α → List α
  | [] => []
  | a :: l => pyInsert le a (pySort le l)

theorem pyInsert_perm {α : Type} (le : α → α → Bool) (a : α) (l : List α) :
    (pyInsert le a l).Perm (a :: l) := by
  induction l with
  | nil => simp [pyInsert]
  | cons b l ih =>
    simp only [pyInsert]
    split
    · exact List.Perm.refl _
    · exact ((ih.cons b).trans (List.Perm.swap a b l))

theorem pySort_perm {α : Type} (le : α → α → Bool) (l : List α) :
    (pySort le l).Perm l := by
  induction l with
  | nil => exact List.Perm.refl _
  | cons a l ih =>
    exact (pyInsert_perm le a (pySort le l)).trans (ih.cons a)

theorem pyInsert_pairwise {α : Type} {le : α → α → Bool}
    (htot : ∀ a b, le a b = true ∨ le b a = true)
    (htrans : ∀ a b c, le a b = true → le b c = true → le a c = true)
    {a : α} {l : List α}
    (hl : l.Pairwise (fun x y => le x y = true)) :
    (pyInsert le a l).Pairwise (fun x y => le x y = true) := by
  induction l with
  | nil => simp [pyInsert]
  | cons b l ih =>
    simp only [pyInsert]
    rcases List.pairwise_cons.mp hl with ⟨hb, hl'⟩
    split
    · rename_i hab
      refine List.pairwise_cons.mpr ⟨?_, hl⟩
      intro x hx
      rcases List.mem_cons.mp hx with hx | hx
      · exact hx ▸ hab
      · exact htrans a b x hab (hb x hx)
    · rename_i hab
      have hba : le b a = true := by
        rcases htot a b with h | h
        · exact absurd h hab
        · exact h
      refine List.pairwise_cons.mpr ⟨?_, ih hl'⟩
      intro x hx
      have hx' := (pyInsert_perm le a l).mem_iff.mp hx
      rcases List.mem_cons.mp hx' with hx' | hx'
      · exact hx' ▸ hba
      · exact hb x hx'

theorem pySort_pairwise {α : Type} {le : α → α → Bool}
    (htot : ∀ a b, le a b = true ∨ le b a = true)
    (htrans : ∀ a b c, le a b = true → le b c = true → le a c = true)
    (l : List α) :
    (pySort le l).Pairwise (fun x y => le x y = true) := by
  induction l with
  | nil => simp [pySort]
  | cons a l ih => exact pyInsert_pairwise htot htrans ih

/-! ### `pdf_reader.py::_group_into_chunks` and `extract_chunks` (C3, C4)

A sentence triplet `(text, boxes, section)` enters `_group_into_chunks`,
which accumulates `cur_text`/`cur_boxes`/`cur_section` and flushes the
running chunk when the section changes, the sentence budget is reached, or
the character budget would be exceeded.  We keep the accumulated
`cur_text` list in the emitted chunk (the source joins it with spaces at
flush time; `chunkTuples` below performs that join). -/

structure SentT where
  txt : String
  boxes : List Box
  sec : String
deriving DecidableEq, Repr

structure RawChunk where
  sents : List String
  boxes : List Box
  sec : String
deriving DecidableEq, Repr

/-- `sum(len(t) for t in cur_text)` -/
def sumLen (l : List String) : Nat := (l.map String.length).sum

/-- The loop of `pdf_reader.py::_group_into_chunks`: the three accumulator
arguments are `cur_text`, `cur_boxes`, `cur_section` (which starts as
`None`).  The final `.getD ""` default is unreachable: a chunk is only
flushed when `cur_text` is non-empty, at which point `cur_section` is set. -/
def groupGo (maxChars maxSents : Nat) :
    List SentT → List String → List Box → Option String → List RawChunk
  | [], curText, curBoxes, curSec =>
    if curText = [] then [] else [⟨curText, curBoxes, curSec.getD ""⟩]
  | s :: rest, curText, curBoxes, curSec =>
    let cs := curSec.getD s.sec
    if s.sec ≠ cs ∨ maxSents ≤ curText.length ∨
        maxChars < sumLen curText + s.txt.length then
      (if curText = [] then [] else [⟨curText, curBoxes, cs⟩]) ++
        groupGo maxChars maxSents rest [s.txt] s.boxes (some s.sec)
    else
      groupGo maxChars maxSents rest (curText ++ [s.txt]) (curBoxes ++ s.boxes)
        (some cs)

/-- `pdf_reader.py::_group_into_chunks` with its default parameters
`max_chars=400`, `max_sents=3`. -/
def group_into_chunks (sents : List SentT) : List RawChunk :=
  groupGo 400 3 sents [] [] none

/-- The tuples actually returned by the source: text is `" ".join(cur_text)`. -/
def chunkTuples (sents : List SentT) : List (String × List Box × String) :=
  (group_into_chunks sents).map
    (fun c => (String.intercalate " " c.sents, c.boxes, c.sec))

/-- A chunk as built by `pdf_reader.py::extract_chunks`:
`Chunk(page_index=pno, order_idx=order, section=..., text=..., boxes=...)`. -/
structure ChunkOut where
  page_index : Nat
  order_idx : Nat
  sec : String
  text : String
  boxes : List Box
deriving DecidableEq, Repr

/-- The chunk-emission part of `pdf_reader.py::extract_chunks`: per page the
sentence triplets are grouped, and a single document-global counter `order`
assigns `order_idx` sequentially over pages in page order. -/
def extract_chunks_model (pages : List (List SentT)) : List ChunkOut :=
  ((pages.enum.map
      (fun pe => (group_into_chunks pe.2).map (fun c => (pe.1, c)))).flatten).enum.map
    (fun e => ⟨e.2.1, e.1, e.2.2.sec, String.intercalate " " e.2.2.sents, e.2.2.boxes⟩)

theorem groupGo_flatten (maxChars maxSents : Nat) (rest : List SentT) :
    ∀ (curText : List String) (curBoxes : List Box) (curSec : Option String),
      ((groupGo maxChars maxSents rest curText curBoxes curSec).map
        (fun c => c.sents)).flatten = curText ++ rest.map (fun s => s.txt) := by
  induction rest with
  | nil =>
    intro curText curBoxes curSec
    by_cases h : curText = [] <;> simp [groupGo, h]
  | cons s rest ih =>
    intro curText curBoxes curSec
    simp only [groupGo]
    split
    · by_cases h : curText = [] <;>
        simp [h, ih [s.txt] s.boxes (some s.sec)]
    · simp [ih (curText ++ [s.txt]) (curBoxes ++ s.boxes)]

theorem groupGo_sents_ne_nil (maxChars maxSents : Nat) (rest : List SentT) :
    ∀ (curText : List String) (curBoxes : List Box) (curSec : Option String),
      ∀ c ∈ groupGo maxChars maxSents rest curText curBoxes curSec,
        c.sents ≠ [] := by
  induction rest with
  | nil =>
    intro curText curBoxes curSec c hc
    simp only [groupGo] at hc
    split at hc
    · exact absurd hc (List.not_mem_nil c)
    · rename_i h
      rcases List.mem_singleton.mp hc with rfl
      exact h
  | cons s rest ih =>
    intro curText curBoxes curSec c hc
    simp only [groupGo] at hc
    split at hc
    · rcases List.mem_append.mp hc with hc | hc
      · split at hc
        · exact absurd hc (List.not_mem_nil c)
        · rename_i h
          rcases List.mem_singleton.mp hc with rfl
          exact h
      · exact ih [s.txt] s.boxes (some s.sec) c hc
    · exact ih (curText ++ [s.txt]) (curBoxes ++ s.boxes) (some _) c hc

theorem groupGo_bounds (rest : List SentT) :
    ∀ (curText : List String) (curBoxes : List Box) (curSec : Option String),
      curText.length ≤ 3 → (curText.length ≤ 1 ∨ sumLen curText ≤ 400) →
      ∀ c ∈ groupGo 400 3 rest curText curBoxes curSec,
        c.sents.length ≤ 3 ∧ (c.sents.length ≤ 1 ∨ sumLen c.sents ≤ 400) := by
  induction rest with
  | nil =>
    intro curText curBoxes curSec hlen hsum c hc
    simp only [groupGo] at hc
    split at hc
    · exact absurd hc (List.not_mem_nil c)
    · rcases List.mem_singleton.mp hc with rfl
      exact ⟨hlen, hsum⟩
  | cons s rest ih =>
    intro curText curBoxes curSec hlen hsum c hc
    simp only [groupGo] at hc
    split at hc
    · rcases List.mem_append.mp hc with hc | hc
      · split at hc
        · exact absurd hc (List.not_mem_nil c)
        · rcases List.mem_singleton.mp hc with rfl
          exact ⟨hlen, hsum⟩
      · refine ih [s.txt] s.boxes (some s.sec) (by simp) (Or.inl (by simp)) c hc
    · rename_i hcond
      push_neg at hcond
      obtain ⟨-, hlen', hsum'⟩ := hcond
      refine ih (curText ++ [s.txt]) (curBoxes ++ s.boxes) (some _) ?_ ?_ c hc
      · simp only [List.length_append, List.length_singleton]
        omega
      · right
        simp only [sumLen, List.map_append, List.sum_append, List.map_cons,
          List.map_nil, List.sum_cons, List.sum_nil, add_zero] at hsum' ⊢
        exact hsum'

set_option maxRecDepth 8000 in
/-- C3 (counterexample): a single sentence of 401 characters produces a chunk
whose accumulated text length exceeds `max_chars = 400`. -/
theorem group_into_chunks_maxchars_cex :
    ∃ c ∈ group_into_chunks
        [⟨String.mk (List.replicate 401 'a'), [], "body"⟩],
      400 < sumLen c.sents := by
  refine ⟨⟨[String.mk (List.replicate 401 'a')], [], "body"⟩, by decide, by decide⟩

/-- C3 (amended): with the default parameters, every chunk produced by
`_group_into_chunks` holds at most 3 sentences, and its accumulated text
length (sum of sentence lengths) is at most 400 unless the chunk consists of
a single sentence that alone exceeds 400 characters. -/
theorem group_into_chunks_bounds :
    ∀ sents : List SentT, ∀ c ∈ group_into_chunks sents,
      c.sents.length ≤ 3 ∧ (c.sents.length ≤ 1 ∨ sumLen c.sents ≤ 400) := by
  intro sents c hc
  exact groupGo_bounds sents [] [] none (by simp) (Or.inl (by simp)) c hc

/-- Witness for C3 (amended) at a concrete two-sentence input. -/
theorem group_into_chunks_bounds_witness :
    (⟨["One.", "Two."], [], "body"⟩ : RawChunk) ∈
        group_into_chunks [⟨"One.", [], "body"⟩, ⟨"Two.", [], "body"⟩] ∧
      ((⟨["One.", "Two."], [], "body"⟩ : RawChunk).sents.length ≤ 3 ∧
        ((⟨["One.", "Two."], [], "body"⟩ : RawChunk).sents.length ≤ 1 ∨
          sumLen (⟨["One.", "Two."], [], "body"⟩ : RawChunk).sents ≤ 400)) :=
  ⟨by decide,
    group_into_chunks_bounds [⟨"One.", [], "body"⟩, ⟨"Two.", [], "body"⟩] _
      (by decide)⟩

/-- C4: the chunks partition the sentence stream — flattening the chunks'
sentence lists gives back exactly the input sentences in order (hence the
sentence counts add up), no chunk is empty, and `order_idx` over the whole
document is the contiguous sequence `0..N-1`. -/
theorem extract_chunks_partition (pages : List (List SentT)) (sents : List SentT) :
    (extract_chunks_model pages).map (fun c => c.order_idx) =
        List.range (extract_chunks_model pages).length ∧
    ((group_into_chunks sents).map (fun c => c.sents)).flatten =
        sents.map (fun s => s.txt) ∧
    (∀ c ∈ group_into_chunks sents, c.sents ≠ []) := by
  refine ⟨?_, ?_, ?_⟩
  · simp only [extract_chunks_model, List.map_map, List.length_map]
    have : ∀ L : List (Nat × RawChunk),
        L.enum.map ((fun c : ChunkOut => c.order_idx) ∘
          (fun e : Nat × Nat × RawChunk =>
            (⟨e.2.1, e.1, e.2.2.sec, String.intercalate " " e.2.2.sents,
              e.2.2.boxes⟩ : ChunkOut))) = List.range L.enum.length := by
      intro L
      have h1 : ((fun c : ChunkOut => c.order_idx) ∘
          (fun e : Nat × Nat × RawChunk =>
            (⟨e.2.1, e.1, e.2.2.sec, String.intercalate " " e.2.2.sents,
              e.2.2.boxes⟩ : ChunkOut))) = Prod.fst := rfl
      rw [h1, List.enum_map_fst, List.enum_length]
    exact this _
  · simpa using groupGo_flatten 400 3 sents [] [] none
  · exact groupGo_sents_ne_nil 400 3 sents [] [] none

/-- Witness for C4 at a concrete document. -/
theorem extract_chunks_partition_witness :
    ((extract_chunks_model [[⟨"Hi.", [], "body"⟩]]).map (fun c => c.order_idx) =
        List.range (extract_chunks_model [[⟨"Hi.", [], "body"⟩]]).length ∧
      ((group_into_chunks [⟨"Hi.", [], "body"⟩]).map (fun c => c.sents)).flatten =
        [⟨"Hi.", [], "body"⟩].map (fun s : SentT => s.txt) ∧
      (∀ c ∈ group_into_chunks [⟨"Hi.", [], "body"⟩], c.sents ≠ [])) :=
  extract_chunks_partition [[⟨"Hi.", [], "body"⟩]] [⟨"Hi.", [], "body"⟩]

/-! ### Font statistics (C8)

Two distinct median computations exist in the repository:
`text_classifier.py::TextClassifier._collect_font_statistics` (accumulates
strictly positive sizes and calls `statistics.median` only when samples
exist) and the per-page block in `pdf_reader.py::extract_chunks` lines
183-189 (`sizes = [s["size"] for s in spans if s.get("size")]`, then
`sizes.sort(); mid = sizes[len(sizes)//2]`, with `mid = 12.0` only when the
page has no spans at all).  Python list indexing and `statistics.median` are
modelled with `Except`. -/

/-- Python list subscription `l[i]`, raising `IndexError` out of range. -/
def pyNth (l : List ℚ) (i : Nat) : Except String ℚ :=
  match l[i]? with
  | some v => .ok v
  | none => .error "IndexError: list index out of range"

/-- Python's `statistics.median`: sort; odd length takes the middle element,
even length averages the two middle elements; raises on empty input. -/
def medianStat (l : List ℚ) : Except String ℚ :=
  if l = [] then .error "StatisticsError: no median for empty data"
  else if l.length % 2 = 1 then
    pyNth (pySort (fun a b : ℚ => decide (a ≤ b)) l) (l.length / 2)
  else do
    let a ← pyNth (pySort (fun a b : ℚ => decide (a ≤ b)) l) (l.length / 2 - 1)
    let b ← pyNth (pySort (fun a b : ℚ => decide (a ≤ b)) l) (l.length / 2)
    pure ((a + b) / 2)

/-- A text span as seen by the classifier (`span.get("size", 0)`). -/
structure CSpan where
  size : ℚ
deriving DecidableEq, Repr

structure CLine where
  spans : List CSpan
deriving DecidableEq, Repr

/-- A block of a PyMuPDF `page.get_text("dict")`: `type` 1 marks images. -/
structure CBlock where
  btype : Nat
  lines : List CLine
deriving DecidableEq, Repr

/-- The strictly positive span sizes of the non-image blocks, in document
order — exactly what `_collect_font_statistics` appends to
`self.font_sizes`. -/
def classifierSizes (blocks : List CBlock) : List ℚ :=
  ((blocks.filter (fun b => b.btype ≠ 1)).flatMap
    (fun b => b.lines.flatMap (fun ln => ln.spans.map (fun sp => sp.size)))).filter
    (fun s => 0 < s)

/-- `text_classifier.py::TextClassifier._collect_font_statistics`: appends
every strictly positive span size of every non-image block to the running
`self.font_sizes`, then recomputes `self.median_font_size` only when the
accumulated list is non-empty (otherwise the previous value — initially
`None` — is kept). -/
def collect_font_statistics (fontSizes : List ℚ) (median : Option ℚ)
    (blocks : List CBlock) : Except String (List ℚ × Option ℚ) :=
  if fontSizes ++ classifierSizes blocks = [] then
    .ok (fontSizes ++ classifierSizes blocks, median)
  else do
    let m ← medianStat (fontSizes ++ classifierSizes blocks)
    pure (fontSizes ++ classifierSizes blocks, some m)

/-- A span record built by `pdf_reader.py::extract_chunks` first pass:
`{"text": ..., "bbox": ..., "size": ...}`. -/
structure RSpan where
  text : String
  bbox : Box
  size : ℚ
deriving DecidableEq, Repr

/-- `sizes = [s["size"] for s in spans if s.get("size")]; sizes.sort()`:
non-zero (truthy) sizes, sorted ascending.  Negative sizes are truthy and
therefore kept. -/
def readerSizes (spans : List RSpan) : List ℚ :=
  pySort (fun a b : ℚ => decide (a ≤ b))
    ((spans.map (fun s => s.size)).filter (fun s => s ≠ 0))

/-- `pdf_reader.py::extract_chunks` lines 183-189: per-page median font
size, `mid = sizes[len(sizes)//2]` when the page has spans, else `12.0`. -/
def reader_page_median (spans : List RSpan) : Except String ℚ :=
  if spans = [] then .ok 12
  else pyNth (readerSizes spans) ((readerSizes spans).length / 2)

theorem pyNth_isOk {l : List ℚ} {i : Nat} (h : i < l.length) :
    ∃ v, pyNth l i = .ok v := by
  unfold pyNth
  cases hg : l[i]? with
  | none =>
    rw [List.getElem?_eq_none_iff] at hg
    omega
  | some v => exact ⟨v, by simp [hg]⟩

theorem medianStat_isOk {l : List ℚ} (h : l ≠ []) :
    ∃ v, medianStat l = .ok v := by
  have hlen : 0 < l.length := List.length_pos.mpr h
  have hslen : (pySort (fun a b : ℚ => decide (a ≤ b)) l).length = l.length :=
    (pySort_perm _ l).length_eq
  unfold medianStat
  rw [if_neg h]
  split
  · exact pyNth_isOk (by rw [hslen]; omega)
  · obtain ⟨a, ha⟩ := pyNth_isOk (l := pySort (fun a b : ℚ => decide (a ≤ b)) l)
      (i := l.length / 2 - 1) (by rw [hslen]; omega)
    obtain ⟨b, hb⟩ := pyNth_isOk (l := pySort (fun a b : ℚ => decide (a ≤ b)) l)
      (i := l.length / 2) (by rw [hslen]; omega)
    exact ⟨(a + b) / 2, by rw [ha, hb]; rfl⟩

/-- C8 (counterexample): a page with one span whose recorded size is `0` has
no valid samples, yet the reader's median computation raises `IndexError`
instead of returning the default `12.0`. -/
theorem reader_page_median_cex :
    reader_page_median [⟨"w", ⟨0, 0, 1, 1⟩, 0⟩] =
      .error "IndexError: list index out of range" := by rfl

/-- C8 (amended): the classifier's median computation ignores zero and
negative sizes and never raises — but with no valid samples it keeps the
previous median (initially `None`), not 12.0; the reader's per-page median
returns 12.0 only when the page has no spans at all, keeps negative sizes,
raises `IndexError` when spans exist but every size is 0, and otherwise
returns the upper-middle element of the sorted non-zero sizes. -/
theorem font_statistics_spec (fontSizes : List ℚ) (median : Option ℚ)
    (blocks : List CBlock) (spans : List RSpan) :
    (∃ p, collect_font_statistics fontSizes median blocks = .ok p ∧
      (∀ x ∈ p.1, x ∈ fontSizes ∨ 0 < x) ∧ (p.1 = [] → p.2 = median)) ∧
    (spans = [] → reader_page_median spans = .ok 12) ∧
    (spans ≠ [] → (spans.map (fun s => s.size)).filter (fun s => s ≠ 0) = [] →
      reader_page_median spans = .error "IndexError: list index out of range") ∧
    ((spans.map (fun s => s.size)).filter (fun s => s ≠ 0) ≠ [] →
      ∃ v, reader_page_median spans = .ok v) := by
  refine ⟨?_, ?_, ?_, ?_⟩
  · unfold collect_font_statistics
    split
    · rename_i hfs
      refine ⟨_, rfl, ?_, fun _ => rfl⟩
      intro x hx
      rw [hfs] at hx
      exact absurd hx (List.not_mem_nil x)
    · rename_i hfs
      obtain ⟨m, hm⟩ := medianStat_isOk hfs
      refine ⟨_, by rw [hm]; rfl, ?_, fun h => absurd h hfs⟩
      intro x hx
      rcases List.mem_append.mp hx with hx | hx
      · exact Or.inl hx
      · exact Or.inr (by simpa using (List.mem_filter.mp hx).2)
  · intro h
    simp [reader_page_median, h]
  · intro hne hflt
    unfold reader_page_median
    rw [if_neg hne]
    unfold readerSizes
    rw [hflt]
    rfl
  · intro hflt
    unfold reader_page_median
    have hspans : spans ≠ [] := by
      intro h
      rw [h] at hflt
      exact hflt rfl
    rw [if_neg hspans]
    have hpos : 0 < ((spans.map (fun s => s.size)).filter (fun s => s ≠ 0)).length :=
      List.length_pos.mpr hflt
    have hslen : (readerSizes spans).length =
        ((spans.map (fun s => s.size)).filter (fun s => s ≠ 0)).length :=
      (pySort_perm _ _).length_eq
    exact pyNth_isOk (by omega)

/-- Witness for C8 (amended) at concrete inputs: an empty page, a page with
one zero-size span, and a page with one 10pt span. -/
theorem font_statistics_spec_witness :
    (∃ p, collect_font_statistics [] none [⟨0, [⟨[⟨11⟩]⟩]⟩] = .ok p ∧
      (∀ x ∈ p.1, x ∈ ([] : List ℚ) ∨ 0 < x) ∧ (p.1 = [] → p.2 = none)) ∧
    reader_page_median [] = .ok 12 ∧
    reader_page_median [⟨"w", ⟨0, 0, 1, 1⟩, 0⟩] =
      .error "IndexError: list index out of range" ∧
    (∃ v, reader_page_median [⟨"w", ⟨0, 0, 1, 1⟩, 10⟩] = .ok v) :=
  ⟨(font_statistics_spec [] none [⟨0, [⟨[⟨11⟩]⟩]⟩] []).1,
   (font_statistics_spec [] none [] []).2.1 rfl,
   (font_statistics_spec [] none [] [⟨"w", ⟨0, 0, 1, 1⟩, 0⟩]).2.2.1
     (by decide) (by decide),
   (font_statistics_spec [] none [] [⟨"w", ⟨0, 0, 1, 1⟩, 10⟩]).2.2.2
     (by decide)⟩

/-! ### `pdf_reader.py::extract_sentences` (C10)

Line 147 splits page text with `re.split(r"(?<=[.?!])\\s+", text)`.  In a
raw string `\\s` stays as backslash-backslash-s, so the compiled regex is
"an escaped literal backslash, then one or more literal `s` characters,
preceded by `.`, `?` or `!`" — not "whitespace".  We embed that exact
delimiter. -/

/-- Python `str.isspace`-style whitespace as used by `str.strip()` and
`str.split()` (ASCII fragment). -/
def pyIsSpace (c : Char) : Bool :=
  c = ' ' ∨ c = '\t' ∨ c = '\n' ∨ c = '\x0d' ∨ c = '\x0b' ∨ c = '\x0c'

/-- Python `str.strip()` on a character list. -/
def pyStrip (l : List Char) : List Char :=
  ((l.dropWhile pyIsSpace).reverse.dropWhile pyIsSpace).reverse

/-- `" ".join(...)`. -/
def joinSp (l : List String) : String := String.intercalate " " l

/-- Python `str.split()` (no argument): split on whitespace runs, dropping
empty pieces. -/
def splitWsAux : List Char → List Char → List (List Char)
  | [], acc => if acc = [] then [] else [acc.reverse]
  | c :: rest, acc =>
    if pyIsSpace c then
      (if acc = [] then [] else [acc.reverse]) ++ splitWsAux rest []
    else splitWsAux rest (c :: acc)

def pySplitWs (l : List Char) : List (List Char) := splitWsAux l []

/-- `re.split(r"(?<=[.?!])\\s+", text)` as compiled: the delimiter is a
literal `\` followed by one or more literal `s`, and the character before
the `\` must be `.`, `?` or `!` (lookbehind).  `prev` is the character
immediately before the current position, `acc` the current (reversed)
segment. -/
def splitBSAux : List Char → Option Char → List Char → List (List Char)
  | [], _, acc => [acc.reverse]
  | c :: rest, prev, acc =>
    if c = '\\' ∧ (prev = some '.' ∨ prev = some '?' ∨ prev = some '!') ∧
        rest.head? = some 's' then
      acc.reverse :: splitBSAux (rest.dropWhile (fun d => d = 's')) (some 's') []
    else splitBSAux rest (some c) (c :: acc)
  termination_by l _ _ => l.length
  decreasing_by
    · simp only [List.length_cons]
      have := (List.dropWhile_sublist (l := rest) (fun d => d = 's')).length_le
      omega
    · simp [List.length_cons]

def splitBS (l : List Char) : List (List Char) := splitBSAux l none []

/-- `pdf_reader.py::Sentence`. -/
structure Sentence where
  page_index : Nat
  text : String
  word_boxes : List Box
deriving DecidableEq, Repr

/-- The word-count loop at the end of `extract_sentences`: each raw sentence
consumes `n = len(s.split())` boxes starting at the running index `wi`;
sentences with `n == 0` are skipped. -/
def sentGo (pno : Nat) (boxes : List Box) : List (List Char) → Nat → List Sentence
  | [], _ => []
  | s :: rest, wi =>
    if (pySplitWs s).length = 0 then sentGo pno boxes rest wi
    else ⟨pno, String.mk s, (boxes.drop wi).take (pySplitWs s).length⟩ ::
      sentGo pno boxes rest (wi + (pySplitWs s).length)

/-- The per-page tail of `pdf_reader.py::extract_sentences` (lines 143-158),
starting from the collected `buffer_words` list of `(word, bbox)` pairs:
join with spaces, skip blank pages, split with the (mis-escaped) sentence
delimiter, strip and drop empty pieces, then map word boxes by counts. -/
def extract_page_sentences (pno : Nat) (buffer : List (String × Box)) :
    List Sentence :=
  if pyStrip (joinSp (buffer.map (fun w => w.1))).data = [] then []
  else sentGo pno (buffer.map (fun w => w.2))
    (((splitBS (joinSp (buffer.map (fun w => w.1))).data).map pyStrip).filter
      (fun s => s ≠ [])) 0

theorem splitBSAux_no_backslash :
    ∀ (l : List Char) (prev : Option Char) (acc : List Char), '\\' ∉ l →
      splitBSAux l prev acc = [acc.reverse ++ l] := by
  intro l
  induction l with
  | nil => intro prev acc _; simp [splitBSAux]
  | cons c rest ih =>
    intro prev acc h
    have hc : c ≠ '\\' := fun hc => h (hc ▸ List.mem_cons_self c rest)
    have hrest : '\\' ∉ rest := fun hr => h (List.mem_cons_of_mem c hr)
    simp only [splitBSAux]
    rw [if_neg (by intro hcond; exact hc hcond.1)]
    rw [ih (some c) (c :: acc) hrest]
    simp

theorem dropWhile_head_not {p : Char → Bool} :
    ∀ l : List Char, l.dropWhile p ≠ [] →
      ∃ c rest, l.dropWhile p = c :: rest ∧ p c = false := by
  intro l
  induction l with
  | nil => intro h; exact absurd rfl h
  | cons c rest ih =>
    intro h
    by_cases hc : p c
    · rw [List.dropWhile_cons_of_pos hc] at h ⊢
      exact ih h
    · rw [List.dropWhile_cons_of_neg hc]
      exact ⟨c, rest, rfl, by simpa using hc⟩

theorem pyStrip_has_nonspace {l : List Char} (h : pyStrip l ≠ []) :
    ∃ c ∈ pyStrip l, pyIsSpace c = false := by
  unfold pyStrip at h ⊢
  have h' : (l.dropWhile pyIsSpace).reverse.dropWhile pyIsSpace ≠ [] := by
    intro he
    rw [he] at h
    exact h rfl
  obtain ⟨c, rest, heq, hc⟩ := dropWhile_head_not _ h'
  refine ⟨c, ?_, hc⟩
  rw [heq]
  simp

theorem splitWsAux_ne_nil :
    ∀ (l : List Char) (acc : List Char),
      ((∃ c ∈ l, pyIsSpace c = false) ∨ acc ≠ []) → splitWsAux l acc ≠ [] := by
  intro l
  induction l with
  | nil =>
    intro acc h
    rcases h with ⟨c, hc, _⟩ | h
    · exact absurd hc (List.not_mem_nil c)
    · simp [splitWsAux, h]
  | cons c rest ih =>
    intro acc h
    simp only [splitWsAux]
    by_cases hc : pyIsSpace c
    · rw [if_pos hc]
      by_cases hacc : acc = []
      · simp only [hacc, if_pos rfl, List.nil_append]
        refine ih [] (Or.inl ?_)
        rcases h with ⟨d, hd, hds⟩ | h
        · rcases List.mem_cons.mp hd with rfl | hd
          · exact absurd hc (by simp [hds])
          · exact ⟨d, hd, hds⟩
        · exact absurd hacc h
      · rw [if_neg hacc]
        simp
    · rw [if_neg hc]
      exact ih (c :: acc) (Or.inr (by simp))

/-- C10: the sentence splitter of `extract_sentences` only splits at a
literal backslash (followed by `s`s, after `.`/`?`/`!`); on any page whose
joined text contains no backslash the whole stripped page text becomes one
single `Sentence`. -/
theorem extract_sentences_single_sentence (pno : Nat)
    (buffer : List (String × Box))
    (hnb : '\\' ∉ (joinSp (buffer.map (fun w => w.1))).data)
    (hne : pyStrip (joinSp (buffer.map (fun w => w.1))).data ≠ []) :
    splitBS (joinSp (buffer.map (fun w => w.1))).data =
        [(joinSp (buffer.map (fun w => w.1))).data] ∧
    ∃ bs, extract_page_sentences pno buffer =
      [⟨pno, String.mk (pyStrip (joinSp (buffer.map (fun w => w.1))).data), bs⟩] := by
  have hsplit : splitBS (joinSp (buffer.map (fun w => w.1))).data =
      [(joinSp (buffer.map (fun w => w.1))).data] := by
    unfold splitBS
    rw [splitBSAux_no_backslash _ none [] hnb]
    simp
  refine ⟨hsplit, ?_⟩
  unfold extract_page_sentences
  rw [if_neg hne, hsplit]
  have hraw : (([(joinSp (buffer.map (fun w => w.1))).data].map pyStrip).filter
      (fun s => s ≠ [])) =
      [pyStrip (joinSp (buffer.map (fun w => w.1))).data] := by
    simp only [List.map_cons, List.map_nil, List.filter]
    rw [decide_eq_true hne]
  rw [hraw]
  have hn : (pySplitWs (pyStrip (joinSp (buffer.map (fun w => w.1))).data)).length ≠ 0 := by
    intro h0
    have hnil := List.length_eq_zero.mp h0
    obtain ⟨c, hc, hcs⟩ := pyStrip_has_nonspace hne
    exact splitWsAux_ne_nil _ [] (Or.inl ⟨c, hc, hcs⟩) hnil
  simp only [sentGo, if_neg hn, List.drop_zero]
  exact ⟨_, rfl⟩

/-- Witness for C10: a page whose text has two `.`-terminated sentences but
no backslash yields exactly one `Sentence` carrying the whole text. -/
theorem extract_sentences_single_sentence_witness :
    splitBS (joinSp (([("Hello", ⟨0, 0, 1, 1⟩), ("world.", ⟨0, 0, 1, 1⟩),
        ("Next", ⟨0, 0, 1, 1⟩), ("sentence.", ⟨0, 0, 1, 1⟩)] :
          List (String × Box)).map (fun w => w.1))).data =
      [(joinSp (([("Hello", ⟨0, 0, 1, 1⟩), ("world.", ⟨0, 0, 1, 1⟩),
        ("Next", ⟨0, 0, 1, 1⟩), ("sentence.", ⟨0, 0, 1, 1⟩)] :
          List (String × Box)).map (fun w => w.1))).data] ∧
    ∃ bs, extract_page_sentences 0 [("Hello", ⟨0, 0, 1, 1⟩),
        ("world.", ⟨0, 0, 1, 1⟩), ("Next", ⟨0, 0, 1, 1⟩),
        ("sentence.", ⟨0, 0, 1, 1⟩)] =
      [⟨0, String.mk (pyStrip (joinSp (([("Hello", ⟨0, 0, 1, 1⟩),
          ("world.", ⟨0, 0, 1, 1⟩), ("Next", ⟨0, 0, 1, 1⟩),
          ("sentence.", ⟨0, 0, 1, 1⟩)] :
            List (String × Box)).map (fun w => w.1))).data), bs⟩] :=
  extract_sentences_single_sentence 0 _ (by decide) (by decide)

/-! ### `caption_matcher.py::CaptionMatcher._perform_caption_matching` (C2)

The greedy matcher sorts captions and visual elements by
`(page or 0, bbox[1] or 0)`, then for each caption picks the best-scoring
unused element above the `0.3` threshold, marking both consumed.  The 1:1
invariant holds for *any* score function, so the loop is embedded with the
score as a parameter (the source instantiates it with
`_calculate_matching_score`, a float computation involving `sqrt`; nothing
in the invariant depends on its value).  Captions and elements are tracked
by their index in the sorted lists, mirroring the source's
`used_captions`/`used_elements` index sets. -/

structure Cap where
  page : Option Int
  bbox : Option Box
  ctype : Option String
deriving DecidableEq, Repr

structure Elem where
  page : Option Int
  bbox : Option Box
  etype : String
deriving DecidableEq, Repr

/-- Sort key `(x.get('page', 0), x.get('bbox', [0, 0, 0, 0])[1])`. -/
def capKeyLe (a b : Cap) : Bool :=
  decide (a.page.getD 0 < b.page.getD 0 ∨
    (a.page.getD 0 = b.page.getD 0 ∧
      (a.bbox.map (fun x => x.y0)).getD 0 ≤ (b.bbox.map (fun x => x.y0)).getD 0))

def elemKeyLe (a b : Elem) : Bool :=
  decide (a.page.getD 0 < b.page.getD 0 ∨
    (a.page.getD 0 = b.page.getD 0 ∧
      (a.bbox.map (fun x => x.y0)).getD 0 ≤ (b.bbox.map (fun x => x.y0)).getD 0))

/-- A `Match`, holding the indices of the matched caption and element in the
sorted lists, the score, and `match_type = f"{caption_type}_{element_type}"`
(Python renders a missing caption type as the string `"None"`). -/
structure MatchR where
  ci : Nat
  ei : Nat
  score : ℚ
  mtype : String
deriving DecidableEq, Repr

/-- The inner loop over `enumerate(visual_elements)`: skip used or
incomplete elements, keep the current best when
`score > best_score and score > 0.3`. -/
def bestGo (score : Cap → Elem → ℚ) (cap : Cap) (used : List Nat) :
    List (Nat × Elem) → Option (Nat × Elem) → ℚ → Option (Nat × Elem × ℚ)
  | [], best, bestScore => best.map (fun je => (je.1, je.2, bestScore))
  | (j, e) :: rest, best, bestScore =>
    if j ∈ used then bestGo score cap used rest best bestScore
    else if e.bbox = none ∨ e.page = none then
      bestGo score cap used rest best bestScore
    else if bestScore < score cap e ∧ 3/10 < score cap e then
      bestGo score cap used rest (some (j, e)) (score cap e)
    else bestGo score cap used rest best bestScore

/-- The outer loop over `enumerate(captions)` with the `used_captions` /
`used_elements` index sets. -/
def matchLoop (score : Cap → Elem → ℚ) (elems : List (Nat × Elem)) :
    List (Nat × Cap) → List Nat → List Nat → List MatchR
  | [], _, _ => []
  | (i, cap) :: rest, usedC, usedE =>
    if i ∈ usedC then matchLoop score elems rest usedC usedE
    else if cap.bbox = none ∨ cap.page = none then
      matchLoop score elems rest usedC usedE
    else
      match bestGo score cap usedE elems none 0 with
      | none => matchLoop score elems rest usedC usedE
      | some (j, e, s) =>
        ⟨i, j, s, cap.ctype.getD "None" ++ "_" ++ e.etype⟩ ::
          matchLoop score elems rest (i :: usedC) (j :: usedE)

/-- `caption_matcher.py::_perform_caption_matching`: sort both lists, then
run the greedy loop. -/
def perform_caption_matching (score : Cap → Elem → ℚ) (captions : List Cap)
    (elems : List Elem) : List MatchR :=
  matchLoop score (pySort elemKeyLe elems).enum (pySort capKeyLe captions).enum [] []

theorem bestGo_not_used (score : Cap → Elem → ℚ) (cap : Cap) (used : List Nat) :
    ∀ (l : List (Nat × Elem)) (best : Option (Nat × Elem)) (s0 : ℚ)
      (j : Nat) (e : Elem) (s : ℚ),
      (∀ je : Nat × Elem, best = some je → je.1 ∉ used) →
      bestGo score cap used l best s0 = some (j, e, s) → j ∉ used := by
  intro l
  induction l with
  | nil =>
    intro best s0 j e s hbest heq
    simp only [bestGo] at heq
    cases best with
    | none => simp at heq
    | some je =>
      rw [Option.map_some'] at heq
      cases heq
      exact hbest je rfl
  | cons p rest ih =>
    intro best s0 j e s hbest heq
    obtain ⟨j', e'⟩ := p
    simp only [bestGo] at heq
    split at heq
    · exact ih best s0 j e s hbest heq
    · split at heq
      · exact ih best s0 j e s hbest heq
      · split at heq
        · rename_i hju _ _
          refine ih (some (j', e')) (score cap e') j e s ?_ heq
          intro je hje
          cases hje
          exact hju
        · exact ih best s0 j e s hbest heq

theorem matchLoop_ci_mem (score : Cap → Elem → ℚ) (elems : List (Nat × Elem)) :
    ∀ (caps : List (Nat × Cap)) (usedC usedE : List Nat),
      ∀ m ∈ matchLoop score elems caps usedC usedE, m.ci ∈ caps.map Prod.fst := by
  intro caps
  induction caps with
  | nil => intro usedC usedE m hm; exact absurd hm (List.not_mem_nil m)
  | cons p rest ih =>
    intro usedC usedE m hm
    obtain ⟨i, cap⟩ := p
    simp only [matchLoop] at hm
    split at hm
    · exact List.mem_cons_of_mem _ (ih usedC usedE m hm)
    · split at hm
      · exact List.mem_cons_of_mem _ (ih usedC usedE m hm)
      · split at hm
        · exact List.mem_cons_of_mem _ (ih usedC usedE m hm)
        · rcases List.mem_cons.mp hm with rfl | hm
          · exact List.mem_cons_self _ _
          · exact List.mem_cons_of_mem _ (ih _ _ m hm)

theorem matchLoop_ei_not_used (score : Cap → Elem → ℚ) (elems : List (Nat × Elem)) :
    ∀ (caps : List (Nat × Cap)) (usedC usedE : List Nat),
      ∀ m ∈ matchLoop score elems caps usedC usedE, m.ei ∉ usedE := by
  intro caps
  induction caps with
  | nil => intro usedC usedE m hm; exact absurd hm (List.not_mem_nil m)
  | cons p rest ih =>
    intro usedC usedE m hm
    obtain ⟨i, cap⟩ := p
    simp only [matchLoop] at hm
    split at hm
    · exact ih usedC usedE m hm
    · split at hm
      · exact ih usedC usedE m hm
      · split at hm
        · exact ih usedC usedE m hm
        · rename_i heq
          rcases List.mem_cons.mp hm with rfl | hm
          · exact bestGo_not_used score cap usedE elems none 0 _ _ _
              (fun je hje => absurd hje (by simp)) heq
          · intro hmem
            exact ih _ _ m hm (List.mem_cons_of_mem _ hmem)

theorem matchLoop_ci_nodup (score : Cap → Elem → ℚ) (elems : List (Nat × Elem)) :
    ∀ (caps : List (Nat × Cap)) (usedC usedE : List Nat),
      (caps.map Prod.fst).Nodup →
      ((matchLoop score elems caps usedC usedE).map (fun m => m.ci)).Nodup := by
  intro caps
  induction caps with
  | nil => intro usedC usedE _; simp [matchLoop]
  | cons p rest ih =>
    intro usedC usedE hnd
    obtain ⟨i, cap⟩ := p
    rw [List.map_cons, List.nodup_cons] at hnd
    obtain ⟨hi, hrest⟩ := hnd
    simp only [matchLoop]
    split
    · exact ih usedC usedE hrest
    · split
      · exact ih usedC usedE hrest
      · split
        · exact ih usedC usedE hrest
        · rw [List.map_cons, List.nodup_cons]
          refine ⟨?_, ih _ _ hrest⟩
          intro hmem
          obtain ⟨m, hm, hmi⟩ := List.mem_map.mp hmem
          have h2 := matchLoop_ci_mem score elems rest _ _ m hm
          rw [hmi] at h2
          exact hi h2

theorem matchLoop_ei_nodup (score : Cap → Elem → ℚ) (elems : List (Nat × Elem)) :
    ∀ (caps : List (Nat × Cap)) (usedC usedE : List Nat),
      ((matchLoop score elems caps usedC usedE).map (fun m => m.ei)).Nodup := by
  intro caps
  induction caps with
  | nil => intro usedC usedE; simp [matchLoop]
  | cons p rest ih =>
    intro usedC usedE
    obtain ⟨i, cap⟩ := p
    simp only [matchLoop]
    split
    · exact ih usedC usedE
    · split
      · exact ih usedC usedE
      · split
        · exact ih usedC usedE
        · rw [List.map_cons, List.nodup_cons]
          refine ⟨?_, ih _ _⟩
          intro hmem
          obtain ⟨m, hm, hmj⟩ := List.mem_map.mp hmem
          have h2 := matchLoop_ei_not_used score elems rest _ _ m hm
          rw [hmj] at h2
          exact h2 (List.mem_cons_self _ _)

/-- C2: in the Match set produced by the greedy caption matching, every
caption candidate index and every visual-element index occurs in at most one
Match — the matching is 1:1, for any score function and any input lists. -/
theorem perform_caption_matching_one_to_one (score : Cap → Elem → ℚ)
    (captions : List Cap) (elems : List Elem) :
    ((perform_caption_matching score captions elems).map (fun m => m.ci)).Nodup ∧
    ((perform_caption_matching score captions elems).map (fun m => m.ei)).Nodup := by
  constructor
  · refine matchLoop_ci_nodup score _ _ [] [] ?_
    rw [List.enum_map_fst]
    exact List.nodup_range _
  · exact matchLoop_ei_nodup score _ _ [] []

/-! ### `caption_matcher.py::CaptionMatcher._analyze_text_for_caption` (C1)

`_compile_patterns` builds its regexes from *raw* f-strings containing
`\\s`, `\\d`, `\\w`, `\\.`: in a raw string these stay as two characters,
so the regex engine parses `\\` as an escaped literal backslash followed by
a plain letter.  E.g. `rf'^\\s*({kw})\\s+(\\d+[\\w\\.]*)'` compiles to
"start, literal `\`, zero or more `s`, a keyword, literal `\`, one or more
`s`, then group 2 = literal `\`, one or more `d`, then characters from the
class `{\, w, .}`" — all case-insensitively.  The parsers below implement
exactly those compiled patterns (ordered alternation with continuation
backtracking, greedy runs with the single-character give-back the trailing
classes allow). -/

/-- Case-insensitively consume the lowercase pattern `p` from the front of
`s`, returning the rest. -/
def stripCI : List Char → List Char → Option (List Char)
  | [], s => some s
  | _ :: _, [] => none
  | p :: ps, c :: cs => if c.toLower = p then stripCI ps cs else none

/-- `s` / `S` (the regex text `s` under `re.IGNORECASE`). -/
def isSch (c : Char) : Bool := c.toLower = 's'

/-- `d` / `D`. -/
def isDch (c : Char) : Bool := c.toLower = 'd'

/-- The character class `[\\w\\.]` as compiled: `{ \, w, . }` (with `W` via
ignore-case). -/
def wClsCh (c : Char) : Bool := c = '\\' ∨ c.toLower = 'w' ∨ c = '.'

/-- The trailing class `[:\\.\\s]` as compiled: `{ :, \, ., s }` (with `S`
via ignore-case). -/
def tClsCh (c : Char) : Bool := c = ':' ∨ c = '\\' ∨ c = '.' ∨ c.toLower = 's'

/-- Compiled `^\\s*`: a mandatory literal backslash, then a greedy run of
`s`. -/
def parseStartBS : List Char → Option (List Char)
  | [] => none
  | c :: rest => if c = '\\' then some ((rest.span isSch).2) else none

/-- Compiled `\\s+`: a literal backslash, then one or more `s`. -/
def parseBSls : List Char → Option (List Char)
  | [] => none
  | c :: rest =>
    if c = '\\' then
      if (rest.span isSch).1 = [] then none else some ((rest.span isSch).2)
    else none

/-- Compiled group `(\\d+[\\w\\.]*)` at the end of a pattern: returns the
captured text. -/
def parseG2 : List Char → Option (List Char)
  | [] => none
  | c :: rest =>
    if c = '\\' then
      if (rest.span isDch).1 = [] then none
      else some ('\\' :: (rest.span isDch).1 ++ ((rest.span isDch).2.span wClsCh).1)
    else none

/-- Compiled `(\\d+[\\w\\.]*)[:\\.\\s]`: as `parseG2` but the pattern
continues with one character of the trailing class, so the greedy class run
backtracks from the right until the next character lies in the trailing
class. -/
def parseG2Trail : List Char → Option (List Char)
  | [] => none
  | c :: rest =>
    if c = '\\' then
      if (rest.span isDch).1 = [] then none
      else
        match ((List.range (((rest.span isDch).2.span wClsCh).1.length + 1)).reverse).find?
            (fun jj =>
              ((if jj = ((rest.span isDch).2.span wClsCh).1.length
                then ((rest.span isDch).2.span wClsCh).2.head?
                else ((rest.span isDch).2.span wClsCh).1[jj]?).map tClsCh).getD false) with
        | some jj =>
          some ('\\' :: (rest.span isDch).1 ++ (((rest.span isDch).2.span wClsCh).1.take jj))
        | none => none
    else none

/-- Compiled `\\s*[:\\.\\s]`: a literal backslash, a greedy `s` run, then
one character of the trailing class; a non-empty `s` run can give back its
last `s` to serve as that character. -/
def parseBSstarCls : List Char → Option Unit
  | [] => none
  | c :: rest =>
    if c = '\\' then
      if (((rest.span isSch).2.head?.map tClsCh).getD false) then some ()
      else if (rest.span isSch).1 ≠ [] then some ()
      else none
    else none

/-- Ordered regex alternation `(k1|k2|...)` followed by the continuation
`cont`: try each keyword in order, backtracking into later alternatives when
the continuation fails; returns the matched keyword and the continuation's
result. -/
def tryKw {α : Type} (cont : List Char → Option α) :
    List (List Char) → List Char → Option (List Char × α)
  | [], _ => none
  | k :: ks, s =>
    match stripCI k s with
    | some r =>
      match cont r with
      | some a => some (k, a)
      | none => tryKw cont ks s
    | none => tryKw cont ks s

def figKws : List (List Char) := ["fig".data, "figure".data]
def tabKws : List (List Char) := ["tab".data, "table".data]
def eqnKws : List (List Char) := ["eq".data, "equation".data]
def algKws : List (List Char) := ["alg".data, "algorithm".data]

/-- `'|'.join(config.caption_keywords)` with the default keyword list. -/
def cfgKws : List (List Char) :=
  ["figure".data, "fig".data, "table".data, "tab".data, "equation".data,
    "eq".data, "algorithm".data, "alg".data]

/-- `figure_patterns[0] = rf'^\\s*(fig|figure)\\s+(\\d+[\\w\\.]*)'`. -/
def figPat1 (t : List Char) : Option (List Char) := do
  let r ← parseStartBS t
  let ka ← tryKw (fun r2 => (parseBSls r2).bind parseG2) figKws r
  pure ka.2

/-- `figure_patterns[1] = rf'^\\s*(fig|figure)\\s*[:\\.\\s]'`. -/
def figPat2 (t : List Char) : Option Unit := do
  let r ← parseStartBS t
  let _ ← tryKw parseBSstarCls figKws r
  pure ()

/-- `table_patterns[0] = rf'^\\s*(tab|table)\\s+(\\d+[\\w\\.]*)'`. -/
def tabPat1 (t : List Char) : Option (List Char) := do
  let r ← parseStartBS t
  let ka ← tryKw (fun r2 => (parseBSls r2).bind parseG2) tabKws r
  pure ka.2

/-- `table_patterns[1] = rf'^\\s*(tab|table)\\s*[:\\.\\s]'`. -/
def tabPat2 (t : List Char) : Option Unit := do
  let r ← parseStartBS t
  let _ ← tryKw parseBSstarCls tabKws r
  pure ()

/-- `equation_patterns[0] = rf'^\\s*(eq|equation)\\s+(\\d+[\\w\\.]*)'`. -/
def eqnPat1 (t : List Char) : Option (List Char) := do
  let r ← parseStartBS t
  let ka ← tryKw (fun r2 => (parseBSls r2).bind parseG2) eqnKws r
  pure ka.2

/-- `equation_patterns[1] = rf'^\\s*(eq|equation)\\s*[:\\.\\s]'`. -/
def eqnPat2 (t : List Char) : Option Unit := do
  let r ← parseStartBS t
  let _ ← tryKw parseBSstarCls eqnKws r
  pure ()

/-- `algorithm_patterns[0] = rf'^\\s*(alg|algorithm)\\s+(\\d+[\\w\\.]*)'`. -/
def algPat1 (t : List Char) : Option (List Char) := do
  let r ← parseStartBS t
  let ka ← tryKw (fun r2 => (parseBSls r2).bind parseG2) algKws r
  pure ka.2

/-- `algorithm_patterns[1] = rf'^\\s*(listing)\\s+(\\d+[\\w\\.]*)'`. -/
def algPat2 (t : List Char) : Option (List Char) := do
  let r ← parseStartBS t
  let ka ← tryKw (fun r2 => (parseBSls r2).bind parseG2) ["listing".data] r
  pure ka.2

/-- `caption_patterns[0] = rf'^\\s*({kw})\\s+(\\d+[\\w\\.]*)[:\\.\\s]'`:
returns (keyword, group 2). -/
def capPat1 (t : List Char) : Option (List Char × List Char) := do
  let r ← parseStartBS t
  tryKw (fun r2 => (parseBSls r2).bind parseG2Trail) cfgKws r

/-- `caption_patterns[1] = rf'^\\s*({kw})\\s+(\\d+[\\w\\.]*)'`. -/
def capPat2 (t : List Char) : Option (List Char × List Char) := do
  let r ← parseStartBS t
  tryKw (fun r2 => (parseBSls r2).bind parseG2) cfgKws r

/-- `caption_patterns[2] = rf'({kw})\\s+(\\d+[\\w\\.]*)[:\\.\\s]'` — the one
unanchored pattern: `re.search` tries every start position left to right. -/
def capPat3 : List Char → Option (List Char × List Char)
  | [] => none
  | c :: rest =>
    match tryKw (fun r2 => (parseBSls r2).bind parseG2Trail) cfgKws (c :: rest) with
    | some ka => some ka
    | none => capPat3 rest

/-- The result dict of `_analyze_text_for_caption`: `caption_type` and the
optional `number` (group 2 when present). -/
structure CapInfo where
  ctype : String
  number : Option String
deriving DecidableEq, Repr

/-- `caption_matcher.py::_analyze_text_for_caption`: strip, reject text
longer than 500 characters, then try the figure, table, equation and
algorithm patterns followed by the three generic caption patterns, in
source order; the first match determines `caption_type` and `number`. -/
def analyze_text_for_caption (text : String) : Option CapInfo :=
  if 500 < (pyStrip text.data).length then none
  else
    (figPat1 (pyStrip text.data)).map
      (fun g => ⟨"figure", some (String.mk g)⟩) <|>
    (figPat2 (pyStrip text.data)).map (fun _ => ⟨"figure", none⟩) <|>
    (tabPat1 (pyStrip text.data)).map
      (fun g => ⟨"table", some (String.mk g)⟩) <|>
    (tabPat2 (pyStrip text.data)).map (fun _ => ⟨"table", none⟩) <|>
    (eqnPat1 (pyStrip text.data)).map
      (fun g => ⟨"equation", some (String.mk g)⟩) <|>
    (eqnPat2 (pyStrip text.data)).map (fun _ => ⟨"equation", none⟩) <|>
    (algPat1 (pyStrip text.data)).map
      (fun g => ⟨"algorithm", some (String.mk g)⟩) <|>
    (algPat2 (pyStrip text.data)).map
      (fun g => ⟨"algorithm", some (String.mk g)⟩) <|>
    (capPat1 (pyStrip text.data)).map
      (fun kg => ⟨String.mk kg.1, some (String.mk kg.2)⟩) <|>
    (capPat2 (pyStrip text.data)).map
      (fun kg => ⟨String.mk kg.1, some (String.mk kg.2)⟩) <|>
    (capPat3 (pyStrip text.data)).map
      (fun kg => ⟨String.mk kg.1, some (String.mk kg.2)⟩)

theorem stripCI_sublist : ∀ (p s r : List Char), stripCI p s = some r → r.Sublist s := by
  intro p
  induction p with
  | nil =>
    intro s r h
    simp only [stripCI, Option.some.injEq] at h
    exact h ▸ List.Sublist.refl s
  | cons p ps ih =>
    intro s r h
    cases s with
    | nil => simp [stripCI] at h
    | cons c cs =>
      simp only [stripCI] at h
      split at h
      · exact (ih cs r h).cons c
      · exact absurd h (by simp)

theorem parseStartBS_no_bs {s : List Char} (h : '\\' ∉ s) :
    parseStartBS s = none := by
  cases s with
  | nil => rfl
  | cons c rest =>
    have hc : c ≠ '\\' := fun hc => h (hc ▸ List.mem_cons_self c rest)
    simp [parseStartBS, hc]

theorem parseBSls_no_bs {s : List Char} (h : '\\' ∉ s) : parseBSls s = none := by
  cases s with
  | nil => rfl
  | cons c rest =>
    have hc : c ≠ '\\' := fun hc => h (hc ▸ List.mem_cons_self c rest)
    simp [parseBSls, hc]

theorem tryKw_bind_none {α : Type} (f : List Char → Option α) :
    ∀ (kws : List (List Char)) (s : List Char), '\\' ∉ s →
      tryKw (fun r2 => (parseBSls r2).bind f) kws s = none := by
  intro kws
  induction kws with
  | nil => intro s _; rfl
  | cons k ks ih =>
    intro s h
    cases hstrip : stripCI k s with
    | none => simp [tryKw, hstrip, ih s h]
    | some r =>
      have hr : '\\' ∉ r := fun hm => h ((stripCI_sublist k s r hstrip).subset hm)
      simp [tryKw, hstrip, parseBSls_no_bs hr, ih s h]

theorem capPat3_no_bs : ∀ s : List Char, '\\' ∉ s → capPat3 s = none := by
  intro s
  induction s with
  | nil => intro _; rfl
  | cons c rest ih =>
    intro h
    have hrest : '\\' ∉ rest := fun hm => h (List.mem_cons_of_mem c hm)
    simp [capPat3, tryKw_bind_none parseG2Trail cfgKws (c :: rest) h, ih hrest]

theorem pyStrip_subset {l : List Char} : ∀ x ∈ pyStrip l, x ∈ l := by
  intro x hx
  unfold pyStrip at hx
  rw [List.mem_reverse] at hx
  have h1 := (List.dropWhile_sublist (l := (l.dropWhile pyIsSpace).reverse)
    pyIsSpace).subset hx
  rw [List.mem_reverse] at h1
  exact (List.dropWhile_sublist (l := l) pyIsSpace).subset h1

/-- C1: the caption-recovery analysis of body text can never identify any
text that does not contain a literal backslash character — in particular no
ordinary caption such as "Figure 1: ..." is ever recovered, because every
compiled pattern demands a literal `\` (the raw-string `\\s`/`\\d` escaping
bug). -/
theorem analyze_text_no_caption (text : String) (h : '\\' ∉ text.data) :
    analyze_text_for_caption text = none := by
  have ht : '\\' ∉ pyStrip text.data := fun hm => h (pyStrip_subset _ hm)
  unfold analyze_text_for_caption
  split
  · rfl
  · simp [figPat1, figPat2, tabPat1, tabPat2, eqnPat1, eqnPat2, algPat1,
      algPat2, capPat1, capPat2, parseStartBS_no_bs ht,
      capPat3_no_bs _ ht]

/-- Witness for C1: evaluating the recovery step at the claim's own example
"Figure 1: ..." produces no caption candidate. -/
theorem analyze_text_no_caption_witness :
    analyze_text_for_caption "Figure 1: Model architecture" = none :=
  analyze_text_no_caption "Figure 1: Model architecture" (by decide)

/-! ### `text_classifier.py::TextClassifier._classify_text_line` (C6)

The classifier's own regexes are written with single backslashes and are
therefore ordinary patterns (whitespace really is whitespace here).  Each
helper predicate below embeds one compiled pattern or rule of
`text_classifier.py`; `classify_text_line` is the fixed-priority chain. -/

/-- The relevant fields of `config.py::ProcessingConfig`, with their
defaults in `defaultConfig`. -/
structure Config where
  header_region_threshold : ℚ
  footer_region_threshold : ℚ
  footnote_size_ratio : ℚ
  title_size_ratio : ℚ
deriving DecidableEq, Repr

def defaultConfig : Config := ⟨1/10, 9/10, 9/10, 13/10⟩

/-- One entry of the per-line `font_info` list (`size`, `flags`). -/
structure FontInfo where
  size : ℚ
  flags : Nat
deriving DecidableEq, Repr

/-- `sum(f.get('size', 0) for f in font_info) / len(font_info)`. -/
def avgOf (l : List ℚ) : ℚ := l.sum / (l.length : ℚ)

/-- Python truthiness of `self.median_font_size`: `None` and `0.0` are
falsy. -/
def medianTruthy : Option ℚ → Bool
  | some v => v != 0
  | none => false

def romanCh (c : Char) : Bool := c.toLower ∈ ['i', 'v', 'x', 'l', 'c', 'd', 'm']

/-- The group `(\d+|[ivxlcdm]+)\s*$` of the page-number pattern (ASCII
digits). -/
def pageNumCore (s : List Char) : Bool :=
  (decide ((s.span Char.isDigit).1 ≠ []) &&
    decide ((s.span Char.isDigit).2.dropWhile pyIsSpace = [])) ||
  (decide ((s.span romanCh).1 ≠ []) &&
    decide ((s.span romanCh).2.dropWhile pyIsSpace = []))

/-- `page_number_pattern = r'^\s*(?:page\s*)?(\d+|[ivxlcdm]+)\s*$'`
(ignore-case), applied with `.match` (anchored at the start). -/
def pageNumPat (t : List Char) : Bool :=
  pageNumCore (t.dropWhile pyIsSpace) ||
  (match stripCI "page".data (t.dropWhile pyIsSpace) with
   | some r => pageNumCore (r.dropWhile pyIsSpace)
   | none => false)

/-- `text_classifier.py::_is_page_number`: short text, pattern match, and
`bbox[1]/height` inside the header or footer band. -/
def is_page_number (cfg : Config) (text : String) (bbox : Box) (pageH : ℚ) :
    Bool :=
  if 10 < (pyStrip text.data).length then false
  else if !(pageNumPat text.data) then false
  else decide (bbox.y0 / pageH < cfg.header_region_threshold ∨
    cfg.footer_region_threshold < bbox.y0 / pageH)

/-- The geometric header/footer test of `text_classifier.py::_is_header_footer`
applied to an actual rectangle with a `height` attribute. -/
def hfTest (cfg : Config) (bbox : Box) (pageH : ℚ) : Bool :=
  decide (bbox.y0 / pageH < cfg.header_region_threshold ∨
    cfg.footer_region_threshold < bbox.y0 / pageH)

/-- The footnote marker class `[\d\*†‡§¶#]`. -/
def fnMarkCh (c : Char) : Bool :=
  c.isDigit || decide (c ∈ ['*', '†', '‡', '§', '¶', '#'])

/-- `footnote_pattern = r'^\s*[\d\*†‡§¶#]+\s*[\.:\-\s]'` applied with
`.match`; the `\s*` run can give back its last character to the final
class (which contains `\s`). -/
def footnotePat (t : List Char) : Bool :=
  decide (((t.dropWhile pyIsSpace).span fnMarkCh).1 ≠ []) &&
  (((((((t.dropWhile pyIsSpace).span fnMarkCh).2.span pyIsSpace).2.head?).map
      (fun c => decide (c = '.' ∨ c = ':' ∨ c = '-') || pyIsSpace c)).getD false) ||
    decide ((((t.dropWhile pyIsSpace).span fnMarkCh).2.span pyIsSpace).1 ≠ []))

/-- One alternative of
`citation_pattern = r'\[\d+\]|\(\d{4}\)|et\s+al\.|ibid\.|op\.\s*cit\.'`
matching at the current position. -/
def citationAt (s : List Char) : Bool :=
  (match s with
   | '[' :: r =>
     decide ((r.span Char.isDigit).1 ≠ []) &&
       decide ((r.span Char.isDigit).2.head? = some ']')
   | _ => false) ||
  (match s with
   | '(' :: a :: b :: c :: d :: ')' :: _ =>
     a.isDigit && b.isDigit && c.isDigit && d.isDigit
   | _ => false) ||
  (match stripCI "et".data s with
   | some r =>
     decide ((r.span pyIsSpace).1 ≠ []) &&
       (match stripCI "al".data (r.span pyIsSpace).2 with
        | some r2 => decide (r2.head? = some '.')
        | none => false)
   | none => false) ||
  (match stripCI "ibid".data s with
   | some r => decide (r.head? = some '.')
   | none => false) ||
  (match stripCI "op".data s with
   | some ('.' :: r) =>
     (match stripCI "cit".data (r.dropWhile pyIsSpace) with
      | some r2 => decide (r2.head? = some '.')
      | none => false)
   | _ => false)

/-- `citation_pattern.search`: try every start position. -/
def citationSearch : List Char → Bool
  | [] => false
  | c :: rest => citationAt (c :: rest) || citationSearch rest

/-- `text_classifier.py::_is_footnote`: bottom edge at or below 70% of the
page, the font-size check (skipped when `font_info` is empty or the median
is falsy), then the marker pattern or a citation pattern.  There is no
text-length disjunct. -/
def is_footnote (cfg : Config) (text : String) (bbox : Box) (pageH : ℚ)
    (fontSizes : List ℚ) (median : Option ℚ) : Bool :=
  if bbox.y1 / pageH < 7/10 then false
  else if (fontSizes ≠ [] ∧ medianTruthy median = true) ∧
      median.getD 0 * cfg.footnote_size_ratio < avgOf fontSizes then false
  else footnotePat text.data || citationSearch text.data

/-- `str.lower()` (ASCII), acting on the character list. -/
def lowerStr (s : String) : String := String.mk (s.data.map Char.toLower)

def startsWithL : List Char → List Char → Bool
  | [], _ => true
  | _ :: _, [] => false
  | p :: ps, c :: cs => decide (p = c) && startsWithL ps cs

/-- Python `needle in haystack` substring containment. -/
def isSubstr (p : List Char) : List Char → Bool
  | [] => startsWithL p []
  | c :: rest => startsWithL p (c :: rest) || isSubstr p rest

/-- `caption_pattern = rf'^\s*(?:{keywords})\s*[:\d\.]'` (single-backslash,
so a genuine whitespace pattern), applied with `.match`. -/
def captionPatTC (t : List Char) : Bool :=
  cfgKws.any (fun k =>
    match stripCI k (t.dropWhile pyIsSpace) with
    | some r =>
      ((((r.span pyIsSpace).2.head?).map
        (fun c => decide (c = ':') || c.isDigit || decide (c = '.'))).getD false)
    | none => false)

/-- `text_classifier.py::_is_caption`. -/
def is_caption (text : String) (layout : Option String) : Bool :=
  (match layout with
   | some lt => isSubstr "caption".data (lowerStr lt).data
   | none => false) ||
  captionPatTC text.data

/-- The four `list_patterns` of `text_classifier.py` (`^\s*[\d\w]\.\s+`,
`^\s*[a-z]\)\s+` — this one compiled without ignore-case —, bullet glyphs,
and dash/asterisk/plus bullets), each applied with `.match`. -/
def isListItem (t : List Char) : Bool :=
  (match t.dropWhile pyIsSpace with
   | a :: '.' :: c :: _ =>
     (a.isDigit || a.isAlphanum || decide (a = '_')) && pyIsSpace c
   | _ => false) ||
  (match t.dropWhile pyIsSpace with
   | a :: ')' :: c :: _ => decide ('a' ≤ a ∧ a ≤ 'z') && pyIsSpace c
   | _ => false) ||
  (match t.dropWhile pyIsSpace with
   | a :: c :: _ =>
     decide (a ∈ ['•', '·', '‣', '▪', '▫', '▸', '▹', '◦', '‧', '⁃']) &&
       pyIsSpace c
   | _ => false) ||
  (match t.dropWhile pyIsSpace with
   | a :: c :: _ => decide (a ∈ ['-', '*', '+']) && pyIsSpace c
   | _ => false)

def titleIndicators : List String :=
  ["abstract", "introduction", "conclusion", "discussion", "methodology",
    "results", "references", "bibliography", "acknowledgments", "appendix",
    "chapter", "section"]

/-- Python `str.isupper()`: at least one cased character and no lowercase
cased character (ASCII model). -/
def pyIsUpper (t : List Char) : Bool :=
  t.any (fun c => c.isAlpha) && t.all (fun c => !c.isAlpha || c.isUpper)

/-- `text_classifier.py::_is_title`. -/
def is_title (cfg : Config) (text : String) (fontInfo : List FontInfo)
    (median : Option ℚ) (layout : Option String) : Bool :=
  (match layout with
   | some lt => lowerStr lt == "title"
   | none => false) ||
  (if (fontInfo ≠ [] ∧ medianTruthy median = true) ∧
      median.getD 0 * cfg.title_size_ratio ≤
        avgOf (fontInfo.map (fun f => f.size)) then true else false) ||
  titleIndicators.any (fun ind => isSubstr ind.data (lowerStr text).data) ||
  fontInfo.any (fun f => f.flags.testBit 4) ||
  (decide (text.length < 100) && pyIsUpper text.data &&
    decide ((pySplitWs text.data).length ≤ 10))

/-- `text_classifier.py::_classify_text_line`: the fixed-priority rule
chain (page number, header/footer, footnote, caption, list, title, body). -/
def classify_text_line (cfg : Config) (text : String) (bbox : Box)
    (pageH : ℚ) (fontInfo : List FontInfo) (median : Option ℚ)
    (layout : Option String) : String :=
  if pyStrip text.data = [] then "body"
  else if is_page_number cfg text bbox pageH then "page_number"
  else if hfTest cfg bbox pageH then
    (if bbox.y0 < pageH * cfg.header_region_threshold then "header" else "footer")
  else if is_footnote cfg text bbox pageH (fontInfo.map (fun f => f.size))
      median then "footnote"
  else if is_caption text layout then "caption"
  else if isListItem text.data then "list"
  else if is_title cfg text fontInfo median layout then "title"
  else "body"

theorem is_footnote_iff (cfg : Config) (text : String) (bbox : Box)
    (pageH : ℚ) (fontSizes : List ℚ) (median : Option ℚ) :
    is_footnote cfg text bbox pageH fontSizes median = true ↔
      ¬ (bbox.y1 / pageH < 7/10) ∧
      ((fontSizes ≠ [] ∧ medianTruthy median = true) →
        ¬ (median.getD 0 * cfg.footnote_size_ratio < avgOf fontSizes)) ∧
      (footnotePat text.data = true ∨ citationSearch text.data = true) := by
  unfold is_footnote
  split
  · rename_i hy
    simp only [Bool.false_eq_true, false_iff]
    intro hcon
    exact hcon.1 hy
  · rename_i hy
    split
    · rename_i hsz
      simp only [Bool.false_eq_true, false_iff]
      intro hcon
      exact hcon.2.1 hsz.1 hsz.2
    · rename_i hsz
      rw [Bool.or_eq_true]
      constructor
      · intro hpat
        refine ⟨hy, ?_, hpat⟩
        intro hfm hlt
        exact hsz ⟨hfm, hlt⟩
      · intro hcon
        exact hcon.2.2

/-- C6 (amended): given that the page-number and header/footer rules did
not fire and the line is non-blank, the classifier returns `footnote`
exactly when the bbox bottom is at or below 70% of the page height, the
average font size is not above `footnoteSizeRatio × median` (a check that is
skipped when the font list is empty or the median is unset/zero), and the
text matches the leading-marker pattern or a citation pattern.  There is no
text-length disjunct. -/
theorem classify_footnote_iff (cfg : Config) (text : String) (bbox : Box)
    (pageH : ℚ) (fontInfo : List FontInfo) (median : Option ℚ)
    (layout : Option String)
    (hne : pyStrip text.data ≠ [])
    (hpn : is_page_number cfg text bbox pageH = false)
    (hhf : hfTest cfg bbox pageH = false) :
    (classify_text_line cfg text bbox pageH fontInfo median layout =
        "footnote" ↔
      ¬ (bbox.y1 / pageH < 7/10) ∧
      ((fontInfo.map (fun f => f.size) ≠ [] ∧ medianTruthy median = true) →
        ¬ (median.getD 0 * cfg.footnote_size_ratio <
            avgOf (fontInfo.map (fun f => f.size)))) ∧
      (footnotePat text.data = true ∨ citationSearch text.data = true)) := by
  rw [← is_footnote_iff cfg text bbox pageH (fontInfo.map (fun f => f.size)) median]
  unfold classify_text_line
  rw [if_neg hne, hpn, hhf]
  simp only [Bool.false_eq_true, if_false]
  constructor
  · intro hcl
    by_contra hnf
    rw [Bool.not_eq_true] at hnf
    rw [hnf] at hcl
    simp only [Bool.false_eq_true, if_false] at hcl
    split at hcl
    · exact absurd hcl (by decide)
    · split at hcl
      · exact absurd hcl (by decide)
      · split at hcl
        · exact absurd hcl (by decide)
        · exact absurd hcl (by decide)
  · intro hf
    rw [hf]
    simp

/-- C6 (counterexample): a short plain line ("hello world", 11 < 120
characters) at the bottom of the page with a small font satisfies all the
claimed conditions — bottom edge at 90% of the page, average size 10 ≤ 0.9
× median 12 — yet the classifier returns `body`, because `_is_footnote` has
no "text length < 120" disjunct. -/
theorem classify_footnote_cex :
    classify_text_line defaultConfig "hello world" ⟨50, 600, 200, 720⟩ 800
        [⟨10, 0⟩] (some 12) none = "body" ∧
    ¬ ((720 : ℚ) / 800 < 7/10) ∧
    avgOf [10] ≤ (12 : ℚ) * defaultConfig.footnote_size_ratio ∧
    "hello world".length < 120 ∧
    is_page_number defaultConfig "hello world" ⟨50, 600, 200, 720⟩ 800 =
      false ∧
    hfTest defaultConfig ⟨50, 600, 200, 720⟩ 800 = false := by
  have hy : ¬ ((720 : ℚ) / 800 < 7/10) := by norm_num
  have hpn : is_page_number defaultConfig "hello world" ⟨50, 600, 200, 720⟩
      800 = false := by decide
  have hhf : hfTest defaultConfig ⟨50, 600, 200, 720⟩ 800 = false := by
    simp only [hfTest, defaultConfig, decide_eq_false_iff_not]
    norm_num
  have havg : avgOf [10] ≤ (12 : ℚ) * defaultConfig.footnote_size_ratio := by
    simp only [avgOf, defaultConfig, List.sum_cons, List.sum_nil,
      List.length_cons, List.length_nil]
    norm_num
  have hfn : is_footnote defaultConfig "hello world" ⟨50, 600, 200, 720⟩ 800
      (List.map (fun f => f.size) [(⟨10, 0⟩ : FontInfo)]) (some 12) = false := by
    unfold is_footnote
    rw [if_neg hy]
    rw [if_neg ?hcon]
    case hcon =>
      intro hcon
      have hlt := hcon.2
      simp only [List.map_cons, List.map_nil, Option.getD_some, avgOf,
        defaultConfig, List.sum_cons, List.sum_nil, List.length_cons,
        List.length_nil] at hlt
      norm_num at hlt
    decide
  have hti : is_title defaultConfig "hello world" [⟨10, 0⟩] (some 12) none =
      false := by
    unfold is_title
    rw [if_neg ?htcon]
    case htcon =>
      intro hcon
      have hle := hcon.2
      simp only [List.map_cons, List.map_nil, Option.getD_some, avgOf,
        defaultConfig, List.sum_cons, List.sum_nil, List.length_cons,
        List.length_nil] at hle
      norm_num at hle
    decide
  refine ⟨?_, hy, havg, by decide, hpn, hhf⟩
  unfold classify_text_line
  rw [if_neg (by decide : ¬ (pyStrip "hello world".data = []))]
  rw [hpn, hhf, hfn, hti]
  simp only [Bool.false_eq_true, if_false]
  rw [if_neg (by decide : ¬ (is_caption "hello world" none = true))]
  rw [if_neg (by decide : ¬ (isListItem "hello world".data = true))]

/-- Witness for C6 (amended): "2. note" at the bottom of the page with a
small font is classified `footnote`. -/
theorem classify_footnote_iff_witness :
    classify_text_line defaultConfig "2. note" ⟨50, 600, 200, 720⟩ 800
      [⟨10, 0⟩] (some 12) none = "footnote" :=
  (classify_footnote_iff defaultConfig "2. note" ⟨50, 600, 200, 720⟩ 800
      [⟨10, 0⟩] (some 12) none (by decide) (by decide)
      (by simp only [hfTest, defaultConfig, decide_eq_false_iff_not]
          norm_num)).mpr
    ⟨by norm_num,
     by intro _
        simp only [List.map_cons, List.map_nil, Option.getD_some, avgOf,
          defaultConfig, List.sum_cons, List.sum_nil, List.length_cons,
          List.length_nil]
        norm_num,
     Or.inl (by decide)⟩

/-! ### `text_classifier.py::_fix_header_footer_classification` (C5)

The repair pass groups blocks by stripped text and, for each text repeated
on at least 3 blocks, evaluates
`all(self._is_header_footer(block['bbox'], {'height': 800}) for block in blocks)`.
`_is_header_footer` reads `page_rect.height` — an *attribute* access — but
is handed a plain dict, which raises `AttributeError`.  We model the second
argument as a `PyRect` value that is either a real rectangle or a dict, and
attribute access as a fallible operation. -/

inductive PyRect where
  | rect (height : ℚ)
  | dict (entries : List (String × ℚ))
deriving DecidableEq, Repr

/-- Python attribute access `page_rect.height`: succeeds on a rectangle,
raises `AttributeError` on a dict (dict items are reached by subscription,
not attributes). -/
def PyRect.heightAttr : PyRect → Except String ℚ
  | .rect h => .ok h
  | .dict _ => .error "AttributeError: dict object has no attribute height"

/-- `text_classifier.py::_is_header_footer(bbox, page_rect)`: reads
`page_rect.height`, then tests the header/footer band (`hfTest`). -/
def is_header_footer (cfg : Config) (bbox : Box) (pr : PyRect) :
    Except String Bool := do
  let h ← pr.heightAttr
  pure (hfTest cfg bbox h)

/-- A classified block as stored in the results collections. -/
structure Blk where
  text : String
  page : Nat
  bbox : Box
  btype : String
deriving DecidableEq, Repr

/-- The three collections `_fix_header_footer_classification` reads and
rewrites. -/
structure Results5 where
  text_blocks : List Blk
  headers : List Blk
  footers : List Blk
deriving DecidableEq, Repr

/-- Append `b` to the group keyed `k`, creating the group at the end when
new — Python dict insertion-order semantics. -/
def addGroup : List (String × List Blk) → String → Blk →
    List (String × List Blk)
  | [], k, b => [(k, [b])]
  | (k0, l) :: rest, k, b =>
    if k0 = k then (k0, l ++ [b]) :: rest
    else (k0, l) :: addGroup rest k b

/-- The `text_groups` dict: group all blocks by stripped text, skipping
texts shorter than 5 characters. -/
def buildGroups (blocks : List Blk) : List (String × List Blk) :=
  blocks.foldl
    (fun gs b =>
      if (pyStrip b.text.data).length < 5 then gs
      else addGroup gs (String.mk (pyStrip b.text.data)) b)
    []

/-- Python's `all(...)` over a generator: evaluates elements left to right,
propagating the first exception and short-circuiting on `False`. -/
def allExcept (f : Blk → Except String Bool) : List Blk → Except String Bool
  | [] => .ok true
  | b :: rest => do
    let v ← f b
    if v then allExcept f rest else pure false

/-- The per-group body of `_fix_header_footer_classification`: for a group
of at least 3 blocks, test the band with the dict literal `{'height': 800}`;
when all instances lie in the band, move the blocks (retyped) into
`headers`/`footers` according to the average `y0` and purge the text from
all three collections. -/
def fixGo (cfg : Config) : List (String × List Blk) → Results5 →
    Except String Results5
  | [], res => .ok res
  | (text, blocks) :: rest, res =>
    if 3 ≤ blocks.length then do
      let inHF ← allExcept
        (fun b => is_header_footer cfg b.bbox (.dict [("height", 800)])) blocks
      if inHF then
        fixGo cfg rest
          (if (blocks.map (fun b => b.bbox.y0)).sum / (blocks.length : ℚ) <
              100 then
            ⟨res.text_blocks.filter
                (fun b => String.mk (pyStrip b.text.data) != text),
              res.headers.filter
                (fun b => String.mk (pyStrip b.text.data) != text) ++
                blocks.map (fun b => { b with btype := "header" }),
              res.footers.filter
                (fun b => String.mk (pyStrip b.text.data) != text)⟩
          else
            ⟨res.text_blocks.filter
                (fun b => String.mk (pyStrip b.text.data) != text),
              res.headers.filter
                (fun b => String.mk (pyStrip b.text.data) != text),
              res.footers.filter
                (fun b => String.mk (pyStrip b.text.data) != text) ++
                blocks.map (fun b => { b with btype := "footer" })⟩)
      else fixGo cfg rest res
    else fixGo cfg rest res

/-- `text_classifier.py::_fix_header_footer_classification`. -/
def fix_header_footer_classification (cfg : Config) (res : Results5) :
    Except String Results5 :=
  fixGo cfg (buildGroups (res.text_blocks ++ res.headers ++ res.footers)) res

theorem allExcept_dict_error (cfg : Config) (blocks : List Blk)
    (h : blocks ≠ []) :
    allExcept (fun b => is_header_footer cfg b.bbox (.dict [("height", 800)]))
        blocks =
      .error "AttributeError: dict object has no attribute height" := by
  cases blocks with
  | nil => exact absurd rfl h
  | cons b rest => rfl

theorem fixGo_error (cfg : Config) :
    ∀ (gs : List (String × List Blk)) (res : Results5),
      (∃ g ∈ gs, 3 ≤ g.2.length) →
      fixGo cfg gs res =
        .error "AttributeError: dict object has no attribute height" := by
  intro gs
  induction gs with
  | nil =>
    intro res h
    obtain ⟨g, hg, -⟩ := h
    exact absurd hg (List.not_mem_nil g)
  | cons p rest ih =>
    intro res h
    obtain ⟨text, blocks⟩ := p
    simp only [fixGo]
    split
    · rename_i hlen
      have hne : blocks ≠ [] := by
        intro hb
        rw [hb] at hlen
        simp at hlen
      rw [allExcept_dict_error cfg blocks hne]
      rfl
    · rename_i hlen
      obtain ⟨g, hg, hg3⟩ := h
      rcases List.mem_cons.mp hg with rfl | hg
      · exact absurd hg3 hlen
      · exact ih res ⟨g, hg, hg3⟩

/-- C5: whenever some stripped text of length ≥ 5 is shared by at least 3
blocks, the repair pass raises `AttributeError` (it hands the dict literal
`{'height': 800}` to `_is_header_footer`, which reads `page_rect.height`),
so no block is ever reclassified and the enclosing
`post_process_classification` aborts via its catch-all handler. -/
theorem fix_header_footer_raises (cfg : Config) (res : Results5)
    (h : ∃ g ∈ buildGroups (res.text_blocks ++ res.headers ++ res.footers),
      3 ≤ g.2.length) :
    fix_header_footer_classification cfg res =
      .error "AttributeError: dict object has no attribute height" :=
  fixGo_error cfg _ res h

/-- Witness for C5: a page header repeated verbatim on three pages inside
the top band makes the repair pass raise. -/
theorem fix_header_footer_raises_witness :
    fix_header_footer_classification defaultConfig
        ⟨[⟨"Journal of Testing", 0, ⟨100, 20, 300, 35⟩, "text"⟩,
          ⟨"Journal of Testing", 1, ⟨100, 20, 300, 35⟩, "text"⟩,
          ⟨"Journal of Testing", 2, ⟨100, 20, 300, 35⟩, "text"⟩], [], []⟩ =
      .error "AttributeError: dict object has no attribute height" :=
  fix_header_footer_raises defaultConfig _
    ⟨("Journal of Testing",
      [⟨"Journal of Testing", 0, ⟨100, 20, 300, 35⟩, "text"⟩,
        ⟨"Journal of Testing", 1, ⟨100, 20, 300, 35⟩, "text"⟩,
        ⟨"Journal of Testing", 2, ⟨100, 20, 300, 35⟩, "text"⟩]),
      by decide, by decide⟩

/-! ### `pdf_utils.py::PDFUtils.detect_reading_order` / `_detect_columns` (C7)

`_detect_columns` sorts the blocks' `x0` values, finds gaps larger than
50pt, and partitions the blocks into half-open `x0` ranges delimited by the
gap right-endpoints (dropping empty ranges); `detect_reading_order` groups
blocks by page, orders each page by columns (each sorted by `y0`) when at
least two columns were found and by `(y0, x0)` otherwise, and enumerates
the result into `reading_order` indices. -/

structure Block7 where
  page : Nat
  bbox : Box
deriving DecidableEq, Repr

def qle : ℚ → ℚ → Bool := fun a b => decide (a ≤ b)

def nle : Nat → Nat → Bool := fun a b => decide (a ≤ b)

/-- The right endpoints `gaps[i][1]` of the >50pt gaps between consecutive
sorted `x0` positions. -/
def gapBounds : List ℚ → List ℚ
  | x :: y :: rest => (if 50 < y - x then [y] else []) ++ gapBounds (y :: rest)
  | _ => []

/-- The middle and last column ranges: `[lo, b)` for each further bound,
then `[lo, ∞)`. -/
def midPreds (lo : ℚ) : List ℚ → List (ℚ → Bool)
  | [] => [fun x => decide (lo ≤ x)]
  | b :: rest => (fun x => decide (lo ≤ x ∧ x < b)) :: midPreds b rest

/-- The column membership tests of `_detect_columns`: first column
`x0 < gaps[0][1]`, middle columns `gaps[i][1] ≤ x0 < gaps[i+1][1]`, last
column `x0 ≥ gaps[-1][1]`. -/
def colPreds : List ℚ → List (ℚ → Bool)
  | [] => []
  | b0 :: rest => (fun x => decide (x < b0)) :: midPreds b0 rest

/-- The candidate column lists, dropping empty columns (`if column:`). -/
def columnsOf (pb : List Block7) : List (List Block7) :=
  ((colPreds (gapBounds (pySort qle (pb.map (fun b => b.bbox.x0))))).map
    (fun p => pb.filter (fun b => p b.bbox.x0))).filter (fun c => c ≠ [])

/-- `pdf_utils.py::_detect_columns`.  (The source's `if not x_positions`
guard is subsumed by the `if not text_blocks` guard, since `x_positions` is
a mapping of `text_blocks`.) -/
def detect_columns (pb : List Block7) : List (List Block7) :=
  if pb = [] then []
  else if gapBounds (pySort qle (pb.map (fun b => b.bbox.x0))) = [] then [pb]
  else if 1 < (columnsOf pb).length then columnsOf pb
  else [pb]

/-- Sort key `bbox[1]` (column ordering). -/
def yle : Block7 → Block7 → Bool := fun a b => decide (a.bbox.y0 ≤ b.bbox.y0)

/-- Sort key `(bbox[1], bbox[0])` (single-column ordering). -/
def yxle : Block7 → Block7 → Bool := fun a b =>
  decide (a.bbox.y0 < b.bbox.y0 ∨
    (a.bbox.y0 = b.bbox.y0 ∧ a.bbox.x0 ≤ b.bbox.x0))

/-- The per-page ordering of `detect_reading_order`: emit each column
sorted by `y0` when at least two columns exist, otherwise sort the page by
`(y0, x0)`. -/
def orderPage (pb : List Block7) : List Block7 :=
  if 1 < (detect_columns pb).length then
    ((detect_columns pb).map (fun c => pySort yle c)).flatten
  else pySort yxle pb

/-- `pdf_utils.py::detect_reading_order`: group by page (pages iterated in
ascending order of `sorted(pages.keys())`), order each page, and attach
`reading_order = i` by enumeration. -/
def detect_reading_order (bs : List Block7) : List (Block7 × Nat) :=
  if bs = [] then []
  else
    (((pySort nle ((bs.map (fun b => b.page)).dedup)).map
        (fun p => orderPage (bs.filter (fun b => b.page = p)))).flatten).enum.map
      (fun e => (e.2, e.1))

theorem count_filter_eq {α : Type} [DecidableEq α] (p : α → Bool) (a : α)
    (l : List α) :
    (l.filter p).count a = if p a = true then l.count a else 0 := by
  by_cases hpa : p a = true
  · rw [if_pos hpa, List.count_filter hpa]
  · rw [if_neg hpa]
    refine List.count_eq_zero.mpr ?_
    intro hmem
    exact hpa (List.mem_filter.mp hmem).2

theorem sum_count_partition {α : Type} [DecidableEq α] (l : List α) (a : α) :
    ∀ preds : List (α → Bool),
      ((preds.map (fun p => (l.filter p).count a)).sum) =
        l.count a * preds.countP (fun p => p a) := by
  intro preds
  induction preds with
  | nil => simp
  | cons p ps ih =>
    rw [List.map_cons, List.sum_cons, ih, List.countP_cons, count_filter_eq]
    by_cases hpa : p a = true
    · rw [if_pos hpa, if_pos hpa]
      ring
    · rw [if_neg hpa, if_neg hpa]
      ring

theorem flatten_map_filter_perm {α : Type} [DecidableEq α] (l : List α)
    (preds : List (α → Bool))
    (h : ∀ a ∈ l, preds.countP (fun p => p a) = 1) :
    ((preds.map (fun p => l.filter p)).flatten).Perm l := by
  rw [List.perm_iff_count]
  intro a
  rw [List.count_flatten, List.map_map]
  have hcomp : (List.count a ∘ fun p => l.filter p) =
      fun p => (l.filter p).count a := rfl
  rw [hcomp, sum_count_partition]
  by_cases ha : a ∈ l
  · rw [h a ha, mul_one]
  · rw [List.count_eq_zero_of_not_mem ha, zero_mul]

theorem flatten_filter_ne_nil {α : Type} [DecidableEq α] :
    ∀ L : List (List α), (L.filter (fun c => c ≠ [])).flatten = L.flatten := by
  intro L
  induction L with
  | nil => rfl
  | cons c rest ih =>
    by_cases hc : c = []
    · simp only [List.filter_cons, hc]
      simp only [ne_eq, decide_not] at ih ⊢
      simp [ih]
    · simp only [List.filter_cons]
      rw [if_pos (by simp [hc])]
      simp only [ne_eq, decide_not] at ih ⊢
      simp [List.flatten_cons, ih]

theorem flatten_map_sort_perm (le : Block7 → Block7 → Bool) :
    ∀ cols : List (List Block7),
      ((cols.map (fun c => pySort le c)).flatten).Perm cols.flatten := by
  intro cols
  induction cols with
  | nil => exact List.Perm.refl _
  | cons c rest ih =>
    simp only [List.map_cons, List.flatten_cons]
    exact (pySort_perm le c).append ih

theorem gapBounds_mem_gt :
    ∀ (l : List ℚ) (x : ℚ), (x :: l).Pairwise (· ≤ ·) →
      ∀ b ∈ gapBounds (x :: l), x < b := by
  intro l
  induction l with
  | nil =>
    intro x _ b hb
    simp [gapBounds] at hb
  | cons y rest ih =>
    intro x hp b hb
    simp only [gapBounds] at hb
    rcases List.mem_append.mp hb with hb | hb
    · split at hb
      · rename_i hgap
        rw [List.mem_singleton.mp hb]
        linarith
      · exact absurd hb (List.not_mem_nil b)
    · have hxy : x ≤ y :=
        (List.pairwise_cons.mp hp).1 y (List.mem_cons_self y rest)
      have hyb := ih y (List.pairwise_cons.mp hp).2 b hb
      linarith

theorem gapBounds_chain :
    ∀ l : List ℚ, l.Pairwise (· ≤ ·) → (gapBounds l).Chain' (· < ·) := by
  intro l
  induction l with
  | nil => intro _; simp [gapBounds]
  | cons x rest ih =>
    intro hp
    cases rest with
    | nil => simp [gapBounds]
    | cons y rest2 =>
      simp only [gapBounds]
      have hp2 := (List.pairwise_cons.mp hp).2
      split
      · rw [List.singleton_append, List.chain'_cons']
        refine ⟨?_, ih hp2⟩
        intro z hz
        exact gapBounds_mem_gt rest2 y hp2 z (List.mem_of_mem_head? hz)
      · rw [List.nil_append]
        exact ih hp2

theorem midPreds_countP (x : ℚ) :
    ∀ (rest : List ℚ) (lo : ℚ), (lo :: rest).Chain' (· < ·) →
      (midPreds lo rest).countP (fun p => p x) =
        if lo ≤ x then 1 else 0 := by
  intro rest
  induction rest with
  | nil =>
    intro lo _
    by_cases h : lo ≤ x <;> simp [midPreds, h]
  | cons b rest2 ih =>
    intro lo hc
    have hlob : lo < b := (List.chain'_cons.mp hc).1
    have hc2 : (b :: rest2).Chain' (· < ·) := (List.chain'_cons.mp hc).2
    simp only [midPreds, List.countP_cons]
    rw [ih b hc2]
    by_cases h1 : lo ≤ x
    · by_cases h2 : x < b
      · have h3 : ¬ b ≤ x := not_le.mpr h2
        simp [h1, h2, h3]
      · have h3 : b ≤ x := not_lt.mp h2
        simp [h1, h2, h3]
    · have h2 : ¬ x < b → False → True := fun _ _ => trivial
      have h3 : ¬ b ≤ x := fun hbx => h1 (le_trans hlob.le hbx)
      have h4 : ¬ (lo ≤ x ∧ x < b) := fun hcon => h1 hcon.1
      simp [h1, h3, h4]

theorem colPreds_countP (x : ℚ) (B : List ℚ) (hB : B ≠ [])
    (hc : B.Chain' (· < ·)) :
    (colPreds B).countP (fun p => p x) = 1 := by
  cases B with
  | nil => exact absurd rfl hB
  | cons b0 rest =>
    simp only [colPreds, List.countP_cons]
    rw [midPreds_countP x rest b0 hc]
    by_cases h : b0 ≤ x
    · have h2 : ¬ x < b0 := not_lt.mpr h
      simp [h, h2]
    · have h2 : x < b0 := not_le.mp h
      simp [h, h2]

theorem qle_total : ∀ a b : ℚ, qle a b = true ∨ qle b a = true := by
  intro a b
  rcases le_total a b with h | h
  · exact Or.inl (decide_eq_true h)
  · exact Or.inr (decide_eq_true h)

theorem qle_trans :
    ∀ a b c : ℚ, qle a b = true → qle b c = true → qle a c = true := by
  intro a b c hab hbc
  exact decide_eq_true (le_trans (of_decide_eq_true hab) (of_decide_eq_true hbc))

theorem nle_total : ∀ a b : Nat, nle a b = true ∨ nle b a = true := by
  intro a b
  rcases Nat.le_total a b with h | h
  · exact Or.inl (decide_eq_true h)
  · exact Or.inr (decide_eq_true h)

theorem nle_trans :
    ∀ a b c : Nat, nle a b = true → nle b c = true → nle a c = true := by
  intro a b c hab hbc
  exact decide_eq_true (le_trans (of_decide_eq_true hab) (of_decide_eq_true hbc))

theorem yle_total : ∀ a b : Block7, yle a b = true ∨ yle b a = true := by
  intro a b
  rcases le_total a.bbox.y0 b.bbox.y0 with h | h
  · exact Or.inl (decide_eq_true h)
  · exact Or.inr (decide_eq_true h)

theorem yle_trans :
    ∀ a b c : Block7, yle a b = true → yle b c = true → yle a c = true := by
  intro a b c hab hbc
  exact decide_eq_true (le_trans (of_decide_eq_true hab) (of_decide_eq_true hbc))

theorem yxle_total : ∀ a b : Block7, yxle a b = true ∨ yxle b a = true := by
  intro a b
  rcases lt_trichotomy a.bbox.y0 b.bbox.y0 with h | h | h
  · exact Or.inl (decide_eq_true (Or.inl h))
  · rcases le_total a.bbox.x0 b.bbox.x0 with h2 | h2
    · exact Or.inl (decide_eq_true (Or.inr ⟨h, h2⟩))
    · exact Or.inr (decide_eq_true (Or.inr ⟨h.symm, h2⟩))
  · exact Or.inr (decide_eq_true (Or.inl h))

theorem yxle_trans :
    ∀ a b c : Block7, yxle a b = true → yxle b c = true → yxle a c = true := by
  intro a b c hab hbc
  have h1 := of_decide_eq_true hab
  have h2 := of_decide_eq_true hbc
  apply decide_eq_true
  rcases h1 with h1 | ⟨h1e, h1x⟩
  · rcases h2 with h2 | ⟨h2e, h2x⟩
    · exact Or.inl (lt_trans h1 h2)
    · exact Or.inl (h2e ▸ h1)
  · rcases h2 with h2 | ⟨h2e, h2x⟩
    · exact Or.inl (h1e ▸ h2)
    · exact Or.inr ⟨h1e.trans h2e, le_trans h1x h2x⟩

theorem xs_sorted (pb : List Block7) :
    (pySort qle (pb.map (fun b => b.bbox.x0))).Pairwise (· ≤ ·) :=
  (pySort_pairwise qle_total qle_trans _).imp (fun h => of_decide_eq_true h)

theorem detect_columns_flatten_perm (pb : List Block7) :
    (detect_columns pb).flatten.Perm pb := by
  unfold detect_columns
  split
  · rename_i h
    rw [h]
    rfl
  · split
    · have h1 : ([pb] : List (List Block7)).flatten = pb := by simp
      rw [h1]
    · split
      · rename_i hne hgap hlen
        unfold columnsOf
        rw [flatten_filter_ne_nil]
        have hrw : (colPreds (gapBounds (pySort qle
              (pb.map (fun b => b.bbox.x0))))).map
              (fun p => pb.filter (fun b => p b.bbox.x0)) =
            ((colPreds (gapBounds (pySort qle
              (pb.map (fun b => b.bbox.x0))))).map
              (fun p => (fun b : Block7 => p b.bbox.x0))).map
              (fun p => pb.filter p) := by
          rw [List.map_map]
          rfl
        rw [hrw]
        apply flatten_map_filter_perm
        intro a _
        rw [List.countP_map]
        have hchain := gapBounds_chain _ (xs_sorted pb)
        have hcount := colPreds_countP a.bbox.x0 _ hgap hchain
        exact hcount
      · have h1 : ([pb] : List (List Block7)).flatten = pb := by simp
        rw [h1]

theorem orderPage_perm (pb : List Block7) : (orderPage pb).Perm pb := by
  unfold orderPage
  split
  · exact (flatten_map_sort_perm yle (detect_columns pb)).trans
      (detect_columns_flatten_perm pb)
  · exact pySort_perm yxle pb

theorem flatten_map_perm {α β : Type} (f g : β → List α)
    (h : ∀ b, (f b).Perm (g b)) :
    ∀ l : List β, ((l.map f).flatten).Perm ((l.map g).flatten) := by
  intro l
  induction l with
  | nil => exact List.Perm.refl _
  | cons b rest ih =>
    simp only [List.map_cons, List.flatten_cons]
    exact (h b).append ih

theorem keys_nodup (bs : List Block7) :
    (pySort nle ((bs.map (fun b => b.page)).dedup)).Nodup :=
  (List.nodup_dedup _).perm (pySort_perm nle _).symm

theorem page_mem_keys {bs : List Block7} {a : Block7} (ha : a ∈ bs) :
    a.page ∈ pySort nle ((bs.map (fun b => b.page)).dedup) := by
  rw [(pySort_perm nle _).mem_iff, List.mem_dedup]
  exact List.mem_map.mpr ⟨a, ha, rfl⟩

theorem keys_partition_perm (bs : List Block7) :
    (((pySort nle ((bs.map (fun b => b.page)).dedup)).map
      (fun p => bs.filter (fun b => b.page = p))).flatten).Perm bs := by
  have hrw : (pySort nle ((bs.map (fun b => b.page)).dedup)).map
        (fun p => bs.filter (fun b => b.page = p)) =
      ((pySort nle ((bs.map (fun b => b.page)).dedup)).map
        (fun p => (fun b : Block7 => decide (b.page = p)))).map
        (fun p => bs.filter p) := by
    rw [List.map_map]
    rfl
  rw [hrw]
  apply flatten_map_filter_perm
  intro a ha
  rw [List.countP_map]
  have h1 : (List.countP
      ((fun p => p a) ∘ fun p => fun b : Block7 => decide (b.page = p))
      (pySort nle ((bs.map (fun b => b.page)).dedup))) =
      List.count a.page (pySort nle ((bs.map (fun b => b.page)).dedup)) := by
    apply List.countP_congr
    intro x _
    show decide (a.page = x) = true ↔ (x == a.page) = true
    constructor
    · intro h
      exact beq_iff_eq.mpr (of_decide_eq_true h).symm
    · intro h
      exact decide_eq_true (beq_iff_eq.mp h).symm
  rw [h1]
  exact List.count_eq_one_of_mem (keys_nodup bs) (page_mem_keys ha)

theorem reading_order_perm_aux (bs : List Block7) :
    ((((pySort nle ((bs.map (fun b => b.page)).dedup)).map
      (fun p => orderPage (bs.filter (fun b => b.page = p)))).flatten)).Perm
      bs :=
  (flatten_map_perm _ _
    (fun p => orderPage_perm (bs.filter (fun b => b.page = p))) _).trans
    (keys_partition_perm bs)

theorem pairwise_le_const {l : List Nat} {c : Nat} (h : ∀ a ∈ l, a = c) :
    l.Pairwise (· ≤ ·) := by
  induction l with
  | nil => exact List.Pairwise.nil
  | cons a rest ih =>
    refine List.pairwise_cons.mpr
      ⟨?_, ih (fun b hb => h b (List.mem_cons_of_mem a hb))⟩
    intro b hb
    rw [h a (List.mem_cons_self a rest), h b (List.mem_cons_of_mem a hb)]

theorem orderPage_filter_page {bs : List Block7} {p : Nat} {b : Block7}
    (hb : b ∈ orderPage (bs.filter (fun x => x.page = p))) : b.page = p := by
  have hmem : b ∈ bs.filter (fun x => x.page = p) :=
    (orderPage_perm _).subset hb
  exact of_decide_eq_true (List.mem_filter.mp hmem).2

theorem swapEnum_map_snd (L : List Block7) :
    (L.enum.map (fun e => (e.2, e.1))).map (fun e : Block7 × Nat => e.2) =
      List.range L.length := by
  rw [List.map_map]
  have h1 : ((fun e : Block7 × Nat => e.2) ∘
      (fun e : Nat × Block7 => (e.2, e.1))) = Prod.fst := rfl
  rw [h1, List.enum_map_fst]

theorem swapEnum_map_fst (L : List Block7) :
    (L.enum.map (fun e => (e.2, e.1))).map (fun e : Block7 × Nat => e.1) =
      L := by
  rw [List.map_map]
  have h1 : ((fun e : Block7 × Nat => e.1) ∘
      (fun e : Nat × Block7 => (e.2, e.1))) = Prod.snd := rfl
  rw [h1, List.enum_map_snd]

theorem swapEnum_map_page (L : List Block7) :
    (L.enum.map (fun e => (e.2, e.1))).map (fun e : Block7 × Nat => e.1.page) =
      L.map (fun b => b.page) := by
  have h2 : (fun e : Block7 × Nat => e.1.page) =
      (fun b : Block7 => b.page) ∘ (fun e : Block7 × Nat => e.1) := rfl
  rw [h2, ← List.map_map, swapEnum_map_fst]

theorem reading_order_pages_pairwise (bs : List Block7) :
    ((((pySort nle ((bs.map (fun b => b.page)).dedup)).map
      (fun p => orderPage (bs.filter (fun b => b.page = p)))).flatten).map
        (fun b => b.page)).Pairwise (· ≤ ·) := by
  rw [List.map_flatten, List.map_map]
  rw [List.pairwise_flatten]
  constructor
  · intro l hl
    obtain ⟨p, hp, hpeq⟩ := List.mem_map.mp hl
    refine pairwise_le_const (c := p) ?_
    intro a ha
    rw [← hpeq] at ha
    obtain ⟨b, hb, hbeq⟩ := List.mem_map.mp ha
    rw [← hbeq]
    exact orderPage_filter_page hb
  · have hkeys : (pySort nle ((bs.map (fun b => b.page)).dedup)).Pairwise
        (· ≤ ·) :=
      (pySort_pairwise nle_total nle_trans _).imp (fun h => of_decide_eq_true h)
    rw [List.pairwise_map]
    refine hkeys.imp_of_mem ?_
    intro p q _ _ hpq x hx y hy
    obtain ⟨b, hb, hbeq⟩ := List.mem_map.mp hx
    obtain ⟨c, hc, hceq⟩ := List.mem_map.mp hy
    rw [← hbeq, ← hceq, orderPage_filter_page hb, orderPage_filter_page hc]
    exact hpq

/-- C7: `detect_reading_order` assigns the contiguous, strictly increasing
document-global indices `0..N-1` in output order; its output is a
permutation of the input blocks; the page sequence along the output is
non-decreasing; a page with at most one detected column is sorted by
`(y0, x0)`; and a page with at least two detected columns is the
concatenation of its columns, left to right, each sorted by `y0`. -/
theorem detect_reading_order_spec (bs : List Block7) :
    ((detect_reading_order bs).map (fun e => e.2) =
      List.range (detect_reading_order bs).length) ∧
    ((detect_reading_order bs).map (fun e => e.1)).Perm bs ∧
    ((detect_reading_order bs).map (fun e => e.1.page)).Chain' (· ≤ ·) ∧
    (∀ pb : List Block7, (detect_columns pb).length ≤ 1 →
      (orderPage pb).Pairwise (fun a b =>
        a.bbox.y0 < b.bbox.y0 ∨
          (a.bbox.y0 = b.bbox.y0 ∧ a.bbox.x0 ≤ b.bbox.x0))) ∧
    (∀ pb : List Block7, 1 < (detect_columns pb).length →
      orderPage pb = ((detect_columns pb).map (fun c => pySort yle c)).flatten ∧
      ∀ c ∈ detect_columns pb,
        (pySort yle c).Pairwise (fun a b => a.bbox.y0 ≤ b.bbox.y0)) := by
  refine ⟨?_, ?_, ?_, ?_, ?_⟩
  · unfold detect_reading_order
    split
    · rfl
    · rw [swapEnum_map_snd, List.length_map, List.enum_length]
  · unfold detect_reading_order
    split
    · rename_i h
      rw [h]
      exact List.Perm.refl _
    · rw [swapEnum_map_fst]
      exact reading_order_perm_aux bs
  · unfold detect_reading_order
    split
    · simp
    · rw [swapEnum_map_page]
      exact (reading_order_pages_pairwise bs).chain'
  · intro pb hcols
    unfold orderPage
    rw [if_neg (by omega)]
    exact (pySort_pairwise yxle_total yxle_trans pb).imp
      (fun h => of_decide_eq_true h)
  · intro pb hcols
    refine ⟨?_, ?_⟩
    · unfold orderPage
      rw [if_pos hcols]
    · intro c _
      exact (pySort_pairwise yle_total yle_trans c).imp
        (fun h => of_decide_eq_true h)

/-- Witness for C7 at a concrete two-page, two-column document. -/
theorem detect_reading_order_spec_witness :
    ((detect_reading_order [⟨1, ⟨0, 10, 5, 20⟩⟩, ⟨0, ⟨100, 5, 130, 15⟩⟩,
        ⟨0, ⟨0, 30, 5, 40⟩⟩, ⟨0, ⟨0, 5, 5, 15⟩⟩]).map (fun e => e.2) =
      List.range (detect_reading_order [⟨1, ⟨0, 10, 5, 20⟩⟩,
        ⟨0, ⟨100, 5, 130, 15⟩⟩, ⟨0, ⟨0, 30, 5, 40⟩⟩,
        ⟨0, ⟨0, 5, 5, 15⟩⟩]).length) ∧
    ((detect_reading_order [⟨1, ⟨0, 10, 5, 20⟩⟩, ⟨0, ⟨100, 5, 130, 15⟩⟩,
        ⟨0, ⟨0, 30, 5, 40⟩⟩, ⟨0, ⟨0, 5, 5, 15⟩⟩]).map (fun e => e.1)).Perm
      [⟨1, ⟨0, 10, 5, 20⟩⟩, ⟨0, ⟨100, 5, 130, 15⟩⟩, ⟨0, ⟨0, 30, 5, 40⟩⟩,
        ⟨0, ⟨0, 5, 5, 15⟩⟩] ∧
    ((detect_reading_order [⟨1, ⟨0, 10, 5, 20⟩⟩, ⟨0, ⟨100, 5, 130, 15⟩⟩,
        ⟨0, ⟨0, 30, 5, 40⟩⟩, ⟨0, ⟨0, 5, 5, 15⟩⟩]).map
      (fun e => e.1.page)).Chain' (· ≤ ·) ∧
    (orderPage [⟨0, ⟨0, 5, 5, 15⟩⟩]).Pairwise (fun a b =>
      a.bbox.y0 < b.bbox.y0 ∨
        (a.bbox.y0 = b.bbox.y0 ∧ a.bbox.x0 ≤ b.bbox.x0)) :=
  ⟨(detect_reading_order_spec _).1, (detect_reading_order_spec _).2.1,
    (detect_reading_order_spec _).2.2.1,
    (detect_reading_order_spec []).2.2.2.1 [⟨0, ⟨0, 5, 5, 15⟩⟩] (by decide)⟩
